import Mathlib

/-!
Shallow embedding of the card-sorting experiment engine:
`src/card_generator.py` (trial generation, answer checking) and the session
state machine of `src/pages/02_Card_Trials.py` (scoring, streak tracking,
rule advancement).

Randomness model: the Python code draws from the global `random` module,
optionally seeded.  Here every random draw consumes the head of an explicit
supply of naturals (`List Nat`); quantifying over all supplies covers every
seed and every behaviour the Python RNG can produce (`choice` can return any
element, `randint` any value in range, `sample` any subset in any order,
`shuffle` any permutation).  Fallible code (the `ValueError` branches of the
generator) runs in an `Except String` layer over the supply state.
-/

/-- A computation consuming a supply of random naturals, possibly failing
(the `ValueError` branches of `card_generator.py`). -/
def GenE (α : Type) : Type := List Nat → Except String α × List Nat

instance : Monad GenE where
  pure a := fun s => (Except.ok a, s)
  bind x f := fun s =>
    match x s with
    | (Except.ok a, s') => f a s'
    | (Except.error e, s') => (Except.error e, s')

/-- Raise a `ValueError`. -/
def throwG {α : Type} (msg : String) : GenE α := fun s => (Except.error msg, s)

/-- The computation `x`, started on supply `s`, succeeds with value `a`
leaving supply `s2`. -/
def RunsTo {α : Type} (x : GenE α) (s : List Nat) (a : α) (s2 : List Nat) : Prop :=
  x s = (Except.ok a, s2)

/-- Draw one natural from the supply (0 when the supply is exhausted). -/
def nextNat : GenE Nat := fun s => (Except.ok (s.headD 0), s.tail)

/-- Model of `random.choice(l)`: any element of `l`; error on an empty list. -/
def choiceG {α : Type} : List α → GenE α
  | [] => throwG "Cannot choose from an empty sequence"
  | a :: t => do
      let n ← nextNat
      pure ((a :: t).getD (n % (a :: t).length) a)

/-- Model of `random.randint(a, b)`: any value in `[a, b]`; error when `b < a`. -/
def randintG (a b : Nat) : GenE Nat :=
  if b < a then throwG "empty range for randint"
  else do
    let n ← nextNat
    pure (a + n % (b - a + 1))

/-- Recursive worker for `sampleG`: repeatedly remove one element at a
supply-chosen index. -/
def sampleGo {α : Type} : Nat → List α → GenE (List α)
  | 0, _ => pure []
  | _ + 1, [] => throwG "sample larger than population"
  | n + 1, a :: t => do
      let k ← nextNat
      let i := k % (a :: t).length
      let x := (a :: t).getD i a
      let rest ← sampleGo n ((a :: t).eraseIdx i)
      pure (x :: rest)

/-- Model of `random.sample(l, n)`: any `n`-element subsequence of distinct
positions of `l`, in any order; error when `n > len(l)`. -/
def sampleG {α : Type} (l : List α) (n : Nat) : GenE (List α) :=
  if l.length < n then throwG "sample larger than population" else sampleGo n l

/-- `get_different_value(current)`: a random value 1-4 that differs from
`current` (`random.choice([v for v in range(1, 5) if v != current])`). -/
def get_different_value (current : Nat) : GenE Nat :=
  choiceG ([1, 2, 3, 4].filter (fun v => decide (v ≠ current)))

/-- `card_to_code`: `[2,4,4,1] -> "2441"`. -/
def card_to_code (card : List Nat) : String :=
  String.join (card.map (fun v => toString v))

/-- `count_rule_matches(main, other, rule_features)`: how many of the given
positions hold equal values in the two cards. -/
def count_rule_matches (main other : List Nat) (rule_features : List Nat) : Nat :=
  rule_features.countP (fun p => main.getD p 0 == other.getD p 0)

/-- The card agrees with `main` on every position of `ps`. -/
def matchesAllOn (main card : List Nat) (ps : List Nat) : Prop :=
  ∀ p ∈ ps, card.getD p 0 = main.getD p 0

/-- The card agrees with `main` exactly on the positions `ps` among
`active`: it matches on all of `ps` and differs on every other active
position. -/
def matchesExactlyOn (main card : List Nat) (ps active : List Nat) : Prop :=
  (∀ p ∈ ps, card.getD p 0 = main.getD p 0) ∧
  (∀ p ∈ active, p ∉ ps → card.getD p 0 ≠ main.getD p 0)

/-- Worker for `generate_random_card`: fill each active position with a
random value 1-4. -/
def generateRandomCardGo : List Nat → List Nat → GenE (List Nat)
  | [], card => pure card
  | p :: ps, card => do
      let v ← randintG 1 4
      generateRandomCardGo ps (card.set p v)

/-- `generate_random_card(active_positions)`: random values (1-4) at active
positions, 0 elsewhere. -/
def generate_random_card (active_positions : List Nat) : GenE (List Nat) :=
  generateRandomCardGo active_positions (List.replicate 4 0)

/-- The `for p in must_match: card[p] = main[p]` loop (pure). -/
def setMatches (main : List Nat) (ps : List Nat) (card : List Nat) : List Nat :=
  ps.foldl (fun c p => c.set p (main.getD p 0)) card

/-- The `for p in must_differ: card[p] = get_different_value(main[p])` loop. -/
def setDiffers (main : List Nat) : List Nat → List Nat → GenE (List Nat)
  | [], card => pure card
  | p :: ps, card => do
      let v ← get_different_value (main.getD p 0)
      setDiffers main ps (card.set p v)

/-- The final loop of `generate_matching_card`:
`card[p] = main[p] if p in extra_match else get_different_value(main[p])`. -/
def fillFree (main : List Nat) (extra : List Nat) : List Nat → List Nat → GenE (List Nat)
  | [], card => pure card
  | p :: ps, card => do
      let c ←
        if decide (p ∈ extra) then pure (card.set p (main.getD p 0))
        else do
          let v ← get_different_value (main.getD p 0)
          pure (card.set p v)
      fillFree main extra ps c

/-- `generate_matching_card(main, active_positions, n_match, must_match,
must_differ)`: a card matching `main` on exactly `n_match` active positions,
with the pinned subsets honoured; `ValueError` when the pins overlap or the
required extra-match count is infeasible.  `must_match`/`must_differ` are
Python sets; here they are deduplicated lists. -/
def generate_matching_card (main : List Nat) (active_positions : List Nat)
    (n_match : Nat) (must_match : List Nat) (must_differ : List Nat) :
    GenE (List Nat) :=
  let mm := must_match.dedup
  let md := must_differ.dedup
  if mm.any (fun p => decide (p ∈ md)) then
    throwG "must_match and must_differ overlap"
  else
    let free := active_positions.filter (fun p => decide (p ∉ mm ∧ p ∉ md))
    if n_match < mm.length ∨ free.length < n_match - mm.length then
      throwG "Cannot achieve the requested number of matches"
    else do
      let card := setMatches main mm (List.replicate 4 0)
      let card ← setDiffers main md card
      let extra_match ← sampleG free (n_match - mm.length)
      fillFree main extra_match free card

/-- `generate_not_both_rule_match(main, active_positions, rule_features,
n_match)`: `n_match` total matches with NOT all rule features matching.
The int expressions `max(0, n_match - len(non_rule))` and
`len(rule_features) - 1` are rendered with truncated `Nat` subtraction,
which agrees with the Python ints for the argument ranges the generator
uses (`rule_features` always has 2 elements). -/
def generate_not_both_rule_match (main : List Nat) (active_positions : List Nat)
    (rule_features : List Nat) (n_match : Nat) : GenE (List Nat) := do
  let non_rule := active_positions.filter (fun p => decide (p ∉ rule_features))
  let max_rf := min (rule_features.length - 1) n_match
  let min_rf := n_match - non_rule.length
  let n_rf ← randintG min_rf max_rf
  let matched_rf ← sampleG rule_features n_rf
  let unmatched_rf := rule_features.filter (fun p => decide (p ∉ matched_rf))
  generate_matching_card main active_positions n_match matched_rf unmatched_rf

/-- `_build_correct(main, rf, non_rf, active_positions, rule_num)`. -/
def buildCorrect (main rf non_rf active_positions : List Nat) (rule_num : Nat) :
    GenE (List Nat) :=
  if rule_num = 5 ∨ rule_num = 6 then do
    let n_extra ← randintG 0 (min 1 non_rf.length)
    generate_matching_card main active_positions (2 + n_extra) rf []
  else
    generate_matching_card main active_positions 2 rf non_rf

/-- `_build_wrong_cards(main, rf, active_positions, rule_num)`: the three
wrong cards for each enumerated rule; `ValueError` on an unknown rule. -/
def buildWrongCards (main rf active_positions : List Nat) (rule_num : Nat) :
    GenE (List (List Nat)) :=
  match rule_num with
  | 1 => do
      let a ← generate_matching_card main active_positions 0 [] []
      let b ← generate_matching_card main active_positions 1 [] []
      let c ← generate_not_both_rule_match main active_positions rf 2
      pure [a, b, c]
  | 2 => do
      let a ← generate_matching_card main active_positions 1 [] []
      let b ← generate_not_both_rule_match main active_positions rf 2
      let c ← generate_not_both_rule_match main active_positions rf 2
      pure [a, b, c]
  | 3 => do
      let a ← generate_matching_card main active_positions 0 [] []
      let b ← generate_matching_card main active_positions 1 [] []
      let c ← generate_not_both_rule_match main active_positions rf 2
      pure [a, b, c]
  | 4 => do
      let a ← generate_matching_card main active_positions 1 [] []
      let b ← generate_matching_card main active_positions 1 [] []
      let c ← generate_not_both_rule_match main active_positions rf 2
      pure [a, b, c]
  | 5 => do
      let a ← generate_matching_card main active_positions 1 [] []
      let b ← generate_not_both_rule_match main active_positions rf 2
      let c ← generate_not_both_rule_match main active_positions rf 2
      pure [a, b, c]
  | 6 => do
      let n ← choiceG [2, 3]
      let a ← generate_not_both_rule_match main active_positions rf n
      let b ← generate_not_both_rule_match main active_positions rf 2
      let c ← generate_not_both_rule_match main active_positions rf 2
      pure [a, b, c]
  | _ => throwG "Unknown rule number"

/-- One trial record, mirroring the dict returned by `generate_trial` plus
the `trial_index_in_rule` key stamped by `generate_all_trials`. -/
structure Trial where
  main : List Nat
  main_code : String
  main_path : String
  options : List (List Nat)
  option_codes : List String
  option_paths : List String
  correct : Nat
  rule : Nat
  rule_features : List Nat
  active_positions : List Nat
  is_transition : Bool
  /-- Modelled from the spec: the previous rule's feature pair, "non-null
  only for the first K trials of a new rule".  The dict built by
  `generate_trial` in `src/card_generator.py` does not record this field,
  but the session page imports and calls `is_perseveration`, whose
  definition (and the field it reads) is not under `src/`. -/
  prevRuleFeatures : Option (List Nat)
  trial_index_in_rule : Nat
deriving DecidableEq, Inhabited

/-- `generate_trial(rule_num, rule_features, active_positions, is_transition,
prev_rule_features)`: main card, shuffled options, recorded correct index. -/
def generate_trial (rule_num : Nat) (rule_features : List Nat)
    (active_positions : List Nat) (is_transition : Bool)
    (prev_rule_features : Option (List Nat)) : GenE Trial := do
  let rf := rule_features
  let non_rf := active_positions.filter (fun p => decide (p ∉ rf))
  let main ← generate_random_card active_positions
  let correct ← buildCorrect main rf non_rf active_positions rule_num
  let wrong ← buildWrongCards main rf active_positions rule_num
  let wrong ←
    match is_transition, prev_rule_features with
    | true, some prf =>
        if prf.isEmpty then pure wrong
        else do
          let non_prf := active_positions.filter (fun p => decide (p ∉ prf))
          let transition ← generate_matching_card main active_positions 2 prf non_prf
          pure (wrong.dropLast ++ [transition])
    | _, _ => pure wrong
  let options := correct :: wrong
  let perm ← sampleG (List.range 4) 4
  let shuffled := perm.map (fun i => options.getD i [])
  let correct_index := perm.indexOf 0
  pure {
    main := main
    main_code := card_to_code main
    main_path := "cards/" ++ card_to_code main ++ ".png"
    options := shuffled
    option_codes := shuffled.map card_to_code
    option_paths := shuffled.map (fun c => "cards/" ++ card_to_code c ++ ".png")
    correct := correct_index
    rule := rule_num
    rule_features := rf
    active_positions := active_positions
    is_transition := is_transition
    prevRuleFeatures := if is_transition then prev_rule_features else none
    trial_index_in_rule := 0 }

/-- Stage 1 active positions (3-symbol cards). -/
def active3 : List Nat := [0, 1, 2]

/-- Stage 2 active positions (4-symbol cards). -/
def active4 : List Nat := [0, 1, 2, 3]

/-- `list(combinations([0,1,2], 2))`. -/
def pairs3 : List (List Nat) := [[0, 1], [0, 2], [1, 2]]

/-- `list(combinations([0,1,2,3], 2))`. -/
def pairs4 : List (List Nat) := [[0, 1], [0, 2], [0, 3], [1, 2], [1, 3], [2, 3]]

/-- One step of the rule-feature assignment loop of `generate_all_trials`:
`candidates = [p for p in pairs if p != prev] if (prev in pairs) else pairs`
followed by `random.choice(candidates)`. -/
def pickPair (pairs : List (List Nat)) (prev : Option (List Nat)) :
    GenE (List Nat) :=
  let candidates :=
    match prev with
    | some pv => if pv ∈ pairs then pairs.filter (fun p => decide (p ≠ pv)) else pairs
    | none => pairs
  choiceG candidates

/-- The rule-feature assignment loop of `generate_all_trials`, unrolled over
rules 1-6 (`pairs_3` for rules 1-2, `pairs_4` for rules 3-6, `prev` being the
previous rule's pair). -/
def assignFeatures : GenE (List (List Nat)) := do
  let p1 ← pickPair pairs3 none
  let p2 ← pickPair pairs3 (some p1)
  let p3 ← pickPair pairs4 (some p2)
  let p4 ← pickPair pairs4 (some p3)
  let p5 ← pickPair pairs4 (some p4)
  let p6 ← pickPair pairs4 (some p5)
  pure [p1, p2, p3, p4, p5, p6]

/-- The inner `for trial_i in range(trials_per_rule)` loop of
`generate_all_trials`: `i` is the current trial index, the first argument
the number of trials still to produce. -/
def trialLoopGo (rule_num : Nat) (rf : List Nat) (active : List Nat)
    (prf : Option (List Nat)) (transition_trials : Nat) :
    Nat → Nat → GenE (List Trial)
  | 0, _ => pure []
  | m + 1, i => do
      let is_trans := prf.isSome && decide (i < transition_trials)
      let t ← generate_trial rule_num rf active is_trans prf
      let rest ← trialLoopGo rule_num rf active prf transition_trials m (i + 1)
      pure ({ t with trial_index_in_rule := i } :: rest)

/-- All `trials_per_rule` trials of one rule, stamped with their index. -/
def trialLoop (rule_num : Nat) (rf : List Nat) (active : List Nat)
    (prf : Option (List Nat)) (transition_trials trials_per_rule : Nat) :
    GenE (List Trial) :=
  trialLoopGo rule_num rf active prf transition_trials trials_per_rule 0

/-- `generate_all_trials(trials_per_rule, transition_trials)`: the feature
assignment followed by the schedule loop over rules 1-6.  The optional
Python `seed` argument corresponds to the initial random supply. -/
def generate_all_trials (trials_per_rule transition_trials : Nat) :
    GenE (List Trial) := do
  let fs ← assignFeatures
  let t1 ← trialLoop 1 (fs.getD 0 []) active3 none transition_trials trials_per_rule
  let t2 ← trialLoop 2 (fs.getD 1 []) active3 (some (fs.getD 0 [])) transition_trials trials_per_rule
  let t3 ← trialLoop 3 (fs.getD 2 []) active4 (some (fs.getD 1 [])) transition_trials trials_per_rule
  let t4 ← trialLoop 4 (fs.getD 3 []) active4 (some (fs.getD 2 [])) transition_trials trials_per_rule
  let t5 ← trialLoop 5 (fs.getD 4 []) active4 (some (fs.getD 3 [])) transition_trials trials_per_rule
  let t6 ← trialLoop 6 (fs.getD 5 []) active4 (some (fs.getD 4 [])) transition_trials trials_per_rule
  pure (t1 ++ t2 ++ t3 ++ t4 ++ t5 ++ t6)

/-- `check_answer(trial_data, selected_index)`.  The Python indexing
`trial_data["options"][selected_index]` is rendered with `getD`; callers
supply an in-range index. -/
def check_answer (trial_data : Trial) (selected_index : Nat) : String :=
  if selected_index = trial_data.correct then "correct"
  else
    let main := trial_data.main
    let selected := trial_data.options.getD selected_index []
    let rf := trial_data.rule_features
    let rule_matches := count_rule_matches main selected rf
    if 1 ≤ rule_matches then "half_correct" else "incorrect"

/-- Modelled from the spec: `is_perseveration(trial, selected_index)` is
imported by `src/pages/02_Card_Trials.py` from `card_generator`, but no
definition exists under `src/`.  Per the spec, it is "true iff the trial has
a non-null previous-feature-pair and the selected card matches main on all
of the previous rule's feature positions". -/
def is_perseveration (trial_data : Trial) (selected_index : Nat) : Bool :=
  match trial_data.prevRuleFeatures with
  | none => false
  | some prf =>
      prf.all (fun p =>
        (trial_data.options.getD selected_index []).getD p 0 == trial_data.main.getD p 0)

/-- `MAX_COUNTED_TRIALS` of `02_Card_Trials.py`. -/
def MAX_COUNTED_TRIALS : Nat := 60

/-- The session state held in `st.session_state` by `02_Card_Trials.py`. -/
structure SessionState where
  trials : List Trial
  trial : Nat
  counted_trials : Nat
  score : Nat
  consecutive_correct : Nat
  rules_found : Nat
  perseveration_errors : Nat
  non_perseveration_errors : Nat
  feedback : Option String
  show_feedback : Bool
  rule_end_message : Bool
deriving DecidableEq, Inhabited

/-- `_game_over()`. -/
def gameOver (s : SessionState) : Prop :=
  MAX_COUNTED_TRIALS ≤ s.counted_trials ∨ s.trials.length ≤ s.trial

instance (s : SessionState) : Decidable (gameOver s) := by
  unfold gameOver; infer_instance

/-- The `for i, t in enumerate(TRIALS)` search of `_advance_to_next_rule`:
first index whose trial has a strictly larger rule number. -/
def findNextRuleIdxGo (current_rule : Nat) : List Trial → Nat → Option Nat
  | [], _ => none
  | t :: ts, i =>
      if current_rule < t.rule then some i
      else findNextRuleIdxGo current_rule ts (i + 1)

/-- `_advance_to_next_rule()`: jump the trial pointer to the first trial of
the next rule, or past the end. -/
def advanceToNextRule (s : SessionState) : SessionState :=
  let current_rule := (s.trials.getD s.trial default).rule
  match findNextRuleIdxGo current_rule s.trials 0 with
  | some i => { s with trial := i }
  | none => { s with trial := s.trials.length }

/-- The scoring and error-tracking section of the answer-button handler of
`02_Card_Trials.py` (the block under "Scoring & error tracking (skip first
trial of each rule)"). -/
def scoreUpdate (s : SessionState) (i : Nat) : SessionState :=
  let trial_data := s.trials.getD s.trial default
  let fb := check_answer trial_data i
  if ¬ trial_data.trial_index_in_rule = 0 then
    let sa := { s with counted_trials := s.counted_trials + 1 }
    if fb = "correct" then
      { sa with score := sa.score + 1,
                consecutive_correct := sa.consecutive_correct + 1 }
    else
      let sb := { sa with consecutive_correct := 0 }
      if is_perseveration trial_data i then
        { sb with perseveration_errors := sb.perseveration_errors + 1 }
      else
        { sb with non_perseveration_errors := sb.non_perseveration_errors + 1 }
  else
    if fb = "correct" then
      { s with consecutive_correct := s.consecutive_correct + 1 }
    else
      { s with consecutive_correct := 0 }

/-- The "Rule advancement via streak" section of the answer-button handler:
on a streak of 3 or more, increment `rules_found` and jump to the next
rule. -/
def streakAdvance (s : SessionState) : SessionState :=
  if 3 ≤ s.consecutive_correct then
    advanceToNextRule { s with rules_found := s.rules_found + 1 }
  else s

/-- The answer-button handler of `02_Card_Trials.py` (scoring, error
tracking, streak bookkeeping, streak-triggered rule advancement, feedback
flags), applied to the selected option index. -/
def answerStep (s : SessionState) (i : Nat) : SessionState :=
  let fb := check_answer (s.trials.getD s.trial default) i
  { streakAdvance (scoreUpdate s i) with feedback := some fb, show_feedback := true }

/-- One further run of the page script after a state change (Streamlit
rerun): the end-screen guard, then the rule-end-message block, then the
feedback-display block; identity on a quiescent state. -/
def rerunStep (s : SessionState) : SessionState :=
  if gameOver s then s
  else if s.rule_end_message then
    let s1 := advanceToNextRule { s with rule_end_message := false }
    { s1 with consecutive_correct := 0 }
  else if s.show_feedback then
    let s1 : SessionState := { s with show_feedback := false, feedback := none }
    let trial_data := s.trials.getD s.trial default
    if 3 ≤ s1.consecutive_correct then
      { s1 with consecutive_correct := 0 }
    else if trial_data.trial_index_in_rule = 9 then
      { s1 with rule_end_message := true, trial := s1.trial + 1 }
    else
      { s1 with trial := s1.trial + 1 }
  else s

/-- Answering a trial and letting the page settle: the button handler
followed by the (at most two) reruns that consume the feedback and
rule-end flags. -/
def answerAndSettle (s : SessionState) (i : Nat) : SessionState :=
  rerunStep (rerunStep (answerStep s i))

/-- The per-trial invariant established by `generate_trial` inside the
per-rule loop of `generate_all_trials`: correct bookkeeping fields, a
correct option matching both rule features at the recorded index, every
other option matching at most one rule feature, and a transition card
matching exactly the previous rule's pair on transition trials. -/
def TrialOk (t : Trial) (rule_num : Nat) (rf active : List Nat)
    (prf : Option (List Nat)) (transition_trials idx : Nat) : Prop :=
  t.rule = rule_num ∧ t.rule_features = rf ∧ t.active_positions = active ∧
  t.trial_index_in_rule = idx ∧
  t.is_transition = (prf.isSome && decide (idx < transition_trials)) ∧
  t.prevRuleFeatures = (if t.is_transition = true then prf else none) ∧
  t.main.length = 4 ∧ t.options.length = 4 ∧ t.correct < 4 ∧
  matchesAllOn t.main (t.options.getD t.correct []) rf ∧
  (∀ k, k < 4 → k ≠ t.correct →
    count_rule_matches t.main (t.options.getD k []) rf ≤ 1) ∧
  (t.is_transition = true → ∀ pf, prf = some pf →
    ∃ o ∈ t.options, matchesExactlyOn t.main o pf active)

/-- The trial buffer shape produced by `generate_all_trials`: `numRules`
blocks of `tpr` trials, in rule order, each trial stamped with its rule
number and its index inside the rule's block. -/
def wellFormed (trials : List Trial) (tpr numRules : Nat) : Prop :=
  trials.length = numRules * tpr ∧
  ∀ j, j < trials.length →
    (trials.getD j default).rule = j / tpr + 1 ∧
    (trials.getD j default).trial_index_in_rule = j % tpr

instance (trials : List Trial) (tpr numRules : Nat) :
    Decidable (wellFormed trials tpr numRules) := by
  unfold wellFormed
  infer_instance

/-- A concrete trial of rule 1 (first trial of its rule): main card
`[1,2,3,0]`, rule features 0 and 1, correct option at index 0. -/
def exTrial : Trial :=
  { main := [1, 2, 3, 0]
    main_code := "1230"
    main_path := "cards/1230.png"
    options := [[1, 2, 4, 0], [2, 3, 3, 0], [1, 1, 1, 0], [3, 2, 2, 0]]
    option_codes := ["1240", "2330", "1110", "3220"]
    option_paths := ["cards/1240.png", "cards/2330.png", "cards/1110.png",
      "cards/3220.png"]
    correct := 0
    rule := 1
    rule_features := [0, 1]
    active_positions := [0, 1, 2]
    is_transition := false
    prevRuleFeatures := none
    trial_index_in_rule := 0 }

/-- A freshly initialised session whose single trial is `exTrial` (a
first-of-rule trial). -/
def exState : SessionState :=
  { trials := [exTrial]
    trial := 0
    counted_trials := 0
    score := 0
    consecutive_correct := 0
    rules_found := 0
    perseveration_errors := 0
    non_perseveration_errors := 0
    feedback := none
    show_feedback := false
    rule_end_message := false }

/-- `exTrial` relabelled as a rule-2 trial. -/
def exTrialR2 : Trial := { exTrial with rule := 2 }

/-- A two-rule session (one trial per rule) whose streak stands at 2, one
correct answer away from the streak-of-3 jump. -/
def streakState : SessionState :=
  { trials := [exTrial, exTrialR2]
    trial := 0
    counted_trials := 0
    score := 0
    consecutive_correct := 2
    rules_found := 0
    perseveration_errors := 0
    non_perseveration_errors := 0
    feedback := none
    show_feedback := false
    rule_end_message := false }

/-- The trial buffer of the demonstration session:
`generate_all_trials(trials_per_rule=10, transition_trials=3)` run on the
all-zero supply. -/
def demoTrials : List Trial :=
  match generate_all_trials 10 3 [] with
  | (Except.ok l, _) => l
  | (Except.error _, _) => []

/-- The freshly initialised session of `_init_state()` over `demoTrials`. -/
def demoInit : SessionState :=
  { trials := demoTrials
    trial := 0
    counted_trials := 0
    score := 0
    consecutive_correct := 0
    rules_found := 0
    perseveration_errors := 0
    non_perseveration_errors := 0
    feedback := none
    show_feedback := false
    rule_end_message := false }

/-- An option index that is never the recorded correct one. -/
def wrongIdx (s : SessionState) : Nat :=
  if (s.trials.getD s.trial default).correct = 0 then 1 else 0

/-- The demonstration session after `n` answers, each deliberately wrong
(so the streak never reaches 3). -/
def demoAfter : Nat → SessionState
  | 0 => demoInit
  | n + 1 => answerAndSettle (demoAfter n) (wrongIdx (demoAfter n))

/-! ### Monad run lemmas -/

theorem bind_def {α β : Type} (x : GenE α) (f : α → GenE β) (s : List Nat) :
    (x >>= f) s =
      match x s with
      | (Except.ok a, s') => f a s'
      | (Except.error e, s') => (Except.error e, s') := rfl

theorem runsTo_pure {α : Type} (a : α) (s : List Nat) : RunsTo (pure a) s a s := rfl

theorem runsTo_bind {α β : Type} {x : GenE α} {f : α → GenE β}
    {s s1 s2 : List Nat} {a : α} {b : β}
    (h1 : RunsTo x s a s1) (h2 : RunsTo (f a) s1 b s2) :
    RunsTo (x >>= f) s b s2 := by
  unfold RunsTo at *
  rw [bind_def, h1]
  exact h2

theorem nextNat_runs (s : List Nat) : RunsTo nextNat s (s.headD 0) s.tail := rfl

/-! ### List helper lemmas -/

theorem getD_set_eq (c : List Nat) (p v : Nat) (h : p < c.length) :
    (c.set p v).getD p 0 = v := by
  simp [List.getD, List.getElem?_set_self, h]

theorem getD_set_ne (c : List Nat) (p q v : Nat) (h : p ≠ q) :
    (c.set p v).getD q 0 = c.getD q 0 := by
  simp [List.getD, List.getElem?_set_ne h]

theorem get_not_mem_eraseIdx {α : Type} [DecidableEq α] :
    ∀ (l : List α), l.Nodup → ∀ (i : Nat) (hh : i < l.length),
      l.get ⟨i, hh⟩ ∉ l.eraseIdx i := by
  intro l
  induction l with
  | nil => intro _ i hh; simp at hh
  | cons a t ih =>
      intro hnd i hh
      rcases List.nodup_cons.mp hnd with ⟨ha, ht⟩
      match i with
      | 0 => simpa using ha
      | Nat.succ j =>
          have hj : j < t.length := by simpa using hh
          have hmem : t.get ⟨j, hj⟩ ∈ t := List.get_mem t j hj
          simp only [List.eraseIdx, List.get]
          intro hc
          rcases List.mem_cons.mp hc with hc | hc
          · exact ha (hc ▸ hmem)
          · exact ih ht j hj hc

theorem getD_mem {α : Type} (l : List α) (n : Nat) (d : α) (h : n < l.length) :
    l.getD n d ∈ l := by
  rw [List.getD_eq_getElem l d h]
  exact List.getElem_mem h

theorem getD_eq_get {α : Type} (l : List α) (n : Nat) (d : α) (h : n < l.length) :
    l.getD n d = l.get ⟨n, h⟩ := by
  rw [List.getD_eq_getElem l d h]
  rfl

/-- Counting the members of a duplicate-free sublist: each element of `sub`
occurs exactly once in `l`. -/
theorem countP_mem_eq_length (l : List Nat) :
    ∀ (sub : List Nat), l.Nodup → sub.Nodup → sub ⊆ l →
      l.countP (fun p => decide (p ∈ sub)) = sub.length := by
  induction l with
  | nil =>
      intro sub _ _ hsub
      match sub with
      | [] => rfl
      | a :: t => exact absurd (hsub (List.mem_cons_self a t)) (List.not_mem_nil a)
  | cons a t ih =>
      intro sub hl hs hsub
      rcases List.nodup_cons.mp hl with ⟨hat, ht⟩
      by_cases hmem : a ∈ sub
      · have herase_sub : sub.erase a ⊆ t := by
          intro x hx
          rcases (List.Nodup.mem_erase_iff hs).mp hx with ⟨hxa, hxs⟩
          rcases List.mem_cons.mp (hsub hxs) with h | h
          · exact absurd h hxa
          · exact h
        have hcongr : t.countP (fun p => decide (p ∈ sub)) =
            t.countP (fun p => decide (p ∈ sub.erase a)) := by
          apply List.countP_congr
          intro x hx
          have hxa : x ≠ a := fun hc => hat (hc ▸ hx)
          simp [List.Nodup.mem_erase_iff hs, hxa]
        have : (a :: t).countP (fun p => decide (p ∈ sub)) =
            t.countP (fun p => decide (p ∈ sub)) + 1 := by
          rw [List.countP_cons]
          simp [hmem]
        rw [this, hcongr, ih (sub.erase a) ht (List.Nodup.erase a hs) herase_sub]
        have hlen := List.length_erase_of_mem hmem
        have hpos : 0 < sub.length := List.length_pos.mpr (List.ne_nil_of_mem hmem)
        omega
      · have hsub' : sub ⊆ t := by
          intro x hx
          rcases List.mem_cons.mp (hsub hx) with h | h
          · exact absurd (h ▸ hx) hmem
          · exact h
        have : (a :: t).countP (fun p => decide (p ∈ sub)) =
            t.countP (fun p => decide (p ∈ sub)) := by
          rw [List.countP_cons]
          simp [hmem]
        rw [this, ih sub ht hs hsub']

/-- A duplicate-free list has at most `e.length` members lying in `e`. -/
theorem countP_mem_le_length (rf e : List Nat) (h : rf.Nodup) :
    rf.countP (fun p => decide (p ∈ e)) ≤ e.length := by
  have hfil : (rf.filter (fun p => decide (p ∈ e))).Nodup :=
    List.Nodup.filter _ h
  have hsub : rf.filter (fun p => decide (p ∈ e)) ⊆ e := by
    intro x hx
    have := List.mem_filter.mp hx
    simpa using this.2
  calc rf.countP (fun p => decide (p ∈ e))
      = (rf.filter (fun p => decide (p ∈ e))).length := (List.countP_eq_length_filter _ _)
    _ ≤ e.length := List.Subperm.length_le (List.Nodup.subperm hfil hsub)

/-! ### Primitive generator specifications -/

theorem choiceG_spec {α : Type} (l : List α) (hl : l ≠ []) (s : List Nat) :
    ∃ v s2, RunsTo (choiceG l) s v s2 ∧ v ∈ l := by
  match l with
  | [] => exact absurd rfl hl
  | a :: t =>
      refine ⟨(a :: t).getD (s.headD 0 % (a :: t).length) a, s.tail,
        runsTo_bind (nextNat_runs s) (runsTo_pure _ _), ?_⟩
      exact getD_mem _ _ _ (Nat.mod_lt _ (by simp))

theorem randintG_spec (a b : Nat) (hab : a ≤ b) (s : List Nat) :
    ∃ v s2, RunsTo (randintG a b) s v s2 ∧ a ≤ v ∧ v ≤ b := by
  refine ⟨a + s.headD 0 % (b - a + 1), s.tail, ?_, ?_, ?_⟩
  · unfold randintG
    rw [if_neg (by omega)]
    exact runsTo_bind (nextNat_runs s) (runsTo_pure _ _)
  · omega
  · have := Nat.mod_lt (s.headD 0) (y := b - a + 1) (by omega)
    omega

theorem get_different_value_spec (current : Nat) (s : List Nat) :
    ∃ v s2, RunsTo (get_different_value current) s v s2 ∧
      v ≠ current ∧ 1 ≤ v ∧ v ≤ 4 := by
  have hne : ([1, 2, 3, 4].filter (fun v => decide (v ≠ current))) ≠ [] := by
    intro hc
    by_cases h1 : current = 1
    · have : (2 : Nat) ∈ [1, 2, 3, 4].filter (fun v => decide (v ≠ current)) := by
        rw [List.mem_filter]
        exact ⟨by simp, by simp [h1]⟩
      rw [hc] at this
      exact List.not_mem_nil _ this
    · have : (1 : Nat) ∈ [1, 2, 3, 4].filter (fun v => decide (v ≠ current)) := by
        rw [List.mem_filter]
        refine ⟨by simp, by simpa using fun hcc => h1 hcc.symm⟩
      rw [hc] at this
      exact List.not_mem_nil _ this
  obtain ⟨v, s2, hrun, hmem⟩ := choiceG_spec _ hne s
  rcases List.mem_filter.mp hmem with ⟨hv4, hvne⟩
  have hv : v = 1 ∨ v = 2 ∨ v = 3 ∨ v = 4 := by simpa using hv4
  refine ⟨v, s2, hrun, by simpa using hvne, by omega, by omega⟩

theorem sampleGo_spec {α : Type} [DecidableEq α] :
    ∀ (n : Nat) (l : List α), n ≤ l.length → l.Nodup → ∀ s,
      ∃ res s2, RunsTo (sampleGo n l) s res s2 ∧
        res.length = n ∧ res.Nodup ∧ res ⊆ l := by
  intro n
  induction n with
  | zero =>
      intro l _ _ s
      exact ⟨[], s, runsTo_pure _ _, rfl, List.nodup_nil, by simp⟩
  | succ m ih =>
      intro l hlen hnd s
      match l with
      | [] => simp at hlen
      | a :: t =>
          set L := a :: t with hL
          have hLpos : 0 < L.length := by simp [hL]
          set i := s.headD 0 % L.length with hi
          have hilt : i < L.length := Nat.mod_lt _ hLpos
          have herase_len : (L.eraseIdx i).length = L.length - 1 := by
            rw [List.length_eraseIdx]
            simp [hilt]
          have hm_le : m ≤ (L.eraseIdx i).length := by
            rw [herase_len]
            have := hlen
            simp only [hL] at this ⊢
            omega
          have herase_nd : (L.eraseIdx i).Nodup := List.Nodup.eraseIdx i hnd
          obtain ⟨rest, s2, hrun, hrl, hrnd, hrsub⟩ :=
            ih (L.eraseIdx i) hm_le herase_nd s.tail
          refine ⟨L.getD i a :: rest, s2, ?_, by simp [hrl], ?_, ?_⟩
          · show RunsTo (sampleGo (m + 1) L) s _ s2
            have : sampleGo (m + 1) L =
                (nextNat >>= fun k =>
                  sampleGo m (L.eraseIdx (k % L.length)) >>= fun rest =>
                  pure (L.getD (k % L.length) a :: rest)) := by
              simp [hL, sampleGo]
            rw [this]
            exact runsTo_bind (nextNat_runs s)
              (runsTo_bind hrun (runsTo_pure _ _))
          · refine List.nodup_cons.mpr ⟨?_, hrnd⟩
            intro hc
            have := hrsub hc
            rw [getD_eq_get L i a hilt] at this
            exact get_not_mem_eraseIdx L hnd i hilt this
          · intro x hx
            rcases List.mem_cons.mp hx with h | h
            · exact h ▸ getD_mem _ _ _ hilt
            · exact List.mem_of_mem_eraseIdx (hrsub h)

theorem sampleG_spec {α : Type} [DecidableEq α] (l : List α) (n : Nat)
    (hn : n ≤ l.length) (hnd : l.Nodup) (s : List Nat) :
    ∃ res s2, RunsTo (sampleG l n) s res s2 ∧
      res.length = n ∧ res.Nodup ∧ res ⊆ l := by
  obtain ⟨res, s2, hrun, h1, h2, h3⟩ := sampleGo_spec n l hn hnd s
  refine ⟨res, s2, ?_, h1, h2, h3⟩
  unfold sampleG
  rw [if_neg (by omega)]
  exact hrun

/-! ### Card construction loop specifications -/

theorem setMatches_spec (main : List Nat) :
    ∀ (ps : List Nat) (card : List Nat), (∀ p ∈ ps, p < card.length) →
      (setMatches main ps card).length = card.length ∧
      ∀ q, (q ∈ ps → (setMatches main ps card).getD q 0 = main.getD q 0) ∧
           (q ∉ ps → (setMatches main ps card).getD q 0 = card.getD q 0) := by
  intro ps
  induction ps with
  | nil => intro card _; exact ⟨rfl, fun q => ⟨fun h => absurd h (List.not_mem_nil q), fun _ => rfl⟩⟩
  | cons a t ih =>
      intro card hlt
      have hstep : setMatches main (a :: t) card =
          setMatches main t (card.set a (main.getD a 0)) := rfl
      have hlt' : ∀ p ∈ t, p < (card.set a (main.getD a 0)).length := by
        intro p hp
        rw [List.length_set]
        exact hlt p (List.mem_cons_of_mem a hp)
      obtain ⟨ihl, ihq⟩ := ih (card.set a (main.getD a 0)) hlt'
      constructor
      · rw [hstep, ihl, List.length_set]
      · intro q
        constructor
        · intro hq
          rw [hstep]
          by_cases hqt : q ∈ t
          · exact (ihq q).1 hqt
          · have hqa : q = a := by
              rcases List.mem_cons.mp hq with h | h
              · exact h
              · exact absurd h hqt
            rw [(ihq q).2 hqt, hqa]
            exact getD_set_eq card a _ (hlt a (List.mem_cons_self a t))
        · intro hq
          have hqa : ¬ q = a := fun hc => hq (hc ▸ List.mem_cons_self a t)
          have hqt : q ∉ t := fun hc => hq (List.mem_cons_of_mem a hc)
          rw [hstep, (ihq q).2 hqt]
          exact getD_set_ne card a q _ (fun hc => hqa hc.symm)

theorem setDiffers_spec (main : List Nat) :
    ∀ (ps : List Nat) (card : List Nat), (∀ p ∈ ps, p < card.length) → ∀ s,
      ∃ card2 s2, RunsTo (setDiffers main ps card) s card2 s2 ∧
        card2.length = card.length ∧
        ∀ q, (q ∈ ps → card2.getD q 0 ≠ main.getD q 0) ∧
             (q ∉ ps → card2.getD q 0 = card.getD q 0) := by
  intro ps
  induction ps with
  | nil =>
      intro card _ s
      exact ⟨card, s, runsTo_pure _ _, rfl,
        fun q => ⟨fun h => absurd h (List.not_mem_nil q), fun _ => rfl⟩⟩
  | cons a t ih =>
      intro card hlt s
      obtain ⟨v, s1, hvrun, hvne, _, _⟩ := get_different_value_spec (main.getD a 0) s
      have hlt' : ∀ p ∈ t, p < (card.set a v).length := by
        intro p hp
        rw [List.length_set]
        exact hlt p (List.mem_cons_of_mem a hp)
      obtain ⟨card2, s2, hrun, hl, hq⟩ := ih (card.set a v) hlt' s1
      refine ⟨card2, s2, ?_, by rw [hl, List.length_set], ?_⟩
      · exact runsTo_bind hvrun hrun
      · intro q
        constructor
        · intro hqmem
          by_cases hqt : q ∈ t
          · exact (hq q).1 hqt
          · have hqa : q = a := by
              rcases List.mem_cons.mp hqmem with h | h
              · exact h
              · exact absurd h hqt
            rw [(hq q).2 hqt, hqa, getD_set_eq card a v (hlt a (List.mem_cons_self a t))]
            exact hqa ▸ hvne
        · intro hqmem
          have hqa : ¬ q = a := fun hc => hqmem (hc ▸ List.mem_cons_self a t)
          have hqt : q ∉ t := fun hc => hqmem (List.mem_cons_of_mem a hc)
          rw [(hq q).2 hqt]
          exact getD_set_ne card a q v (fun hc => hqa hc.symm)

theorem fillFree_spec (main extra : List Nat) :
    ∀ (ps : List Nat) (card : List Nat), (∀ p ∈ ps, p < card.length) → ∀ s,
      ∃ card2 s2, RunsTo (fillFree main extra ps card) s card2 s2 ∧
        card2.length = card.length ∧
        ∀ q, (q ∈ ps → (q ∈ extra → card2.getD q 0 = main.getD q 0) ∧
                       (q ∉ extra → card2.getD q 0 ≠ main.getD q 0)) ∧
             (q ∉ ps → card2.getD q 0 = card.getD q 0) := by
  intro ps
  induction ps with
  | nil =>
      intro card _ s
      exact ⟨card, s, runsTo_pure _ _, rfl,
        fun q => ⟨fun h => absurd h (List.not_mem_nil q), fun _ => rfl⟩⟩
  | cons a t ih =>
      intro card hlt s
      have halt : a < card.length := hlt a (List.mem_cons_self a t)
      have hlt' : ∀ (v : Nat), ∀ p ∈ t, p < (card.set a v).length := by
        intro v p hp
        rw [List.length_set]
        exact hlt p (List.mem_cons_of_mem a hp)
      by_cases hae : a ∈ extra
      · obtain ⟨card2, s2, hrun, hl, hq⟩ := ih (card.set a (main.getD a 0)) (hlt' _) s
        refine ⟨card2, s2, ?_, by rw [hl, List.length_set], ?_⟩
        · show RunsTo (fillFree main extra (a :: t) card) s card2 s2
          have : fillFree main extra (a :: t) card =
              fillFree main extra t (card.set a (main.getD a 0)) := by
            simp [fillFree, hae]
            rfl
          rw [this]
          exact hrun
        · intro q
          constructor
          · intro hqmem
            by_cases hqt : q ∈ t
            · exact (hq q).1 hqt
            · have hqa : q = a := by
                rcases List.mem_cons.mp hqmem with h | h
                · exact h
                · exact absurd h hqt
              subst hqa
              constructor
              · intro _
                rw [(hq q).2 hqt, getD_set_eq card q _ halt]
              · intro hc
                exact absurd hae hc
          · intro hqmem
            have hqa : ¬ q = a := fun hc => hqmem (hc ▸ List.mem_cons_self a t)
            have hqt : q ∉ t := fun hc => hqmem (List.mem_cons_of_mem a hc)
            rw [(hq q).2 hqt]
            exact getD_set_ne card a q _ (fun hc => hqa hc.symm)
      · obtain ⟨v, s1, hvrun, hvne, _, _⟩ := get_different_value_spec (main.getD a 0) s
        obtain ⟨card2, s2, hrun, hl, hq⟩ := ih (card.set a v) (hlt' _) s1
        refine ⟨card2, s2, ?_, by rw [hl, List.length_set], ?_⟩
        · show RunsTo (fillFree main extra (a :: t) card) s card2 s2
          have : fillFree main extra (a :: t) card =
              ((get_different_value (main.getD a 0)) >>= fun v =>
                fillFree main extra t (card.set a v)) := by
            simp [fillFree, hae]
            rfl
          rw [this]
          exact runsTo_bind hvrun hrun
        · intro q
          constructor
          · intro hqmem
            by_cases hqt : q ∈ t
            · exact (hq q).1 hqt
            · have hqa : q = a := by
                rcases List.mem_cons.mp hqmem with h | h
                · exact h
                · exact absurd h hqt
              subst hqa
              constructor
              · intro hc
                exact absurd hc hae
              · intro _
                rw [(hq q).2 hqt, getD_set_eq card q v halt]
                exact hvne
          · intro hqmem
            have hqa : ¬ q = a := fun hc => hqmem (hc ▸ List.mem_cons_self a t)
            have hqt : q ∉ t := fun hc => hqmem (List.mem_cons_of_mem a hc)
            rw [(hq q).2 hqt]
            exact getD_set_ne card a q v (fun hc => hqa hc.symm)

theorem generateRandomCardGo_spec :
    ∀ (ps : List Nat) (card : List Nat) (s : List Nat),
      ∃ card2 s2, RunsTo (generateRandomCardGo ps card) s card2 s2 ∧
        card2.length = card.length := by
  intro ps
  induction ps with
  | nil => intro card s; exact ⟨card, s, runsTo_pure _ _, rfl⟩
  | cons a t ih =>
      intro card s
      obtain ⟨v, s1, hvrun, _, _⟩ := randintG_spec 1 4 (by omega) s
      obtain ⟨card2, s2, hrun, hl⟩ := ih (card.set a v) s1
      refine ⟨card2, s2, runsTo_bind hvrun hrun, by rw [hl, List.length_set]⟩

theorem generate_random_card_spec (active_positions : List Nat) (s : List Nat) :
    ∃ main s2, RunsTo (generate_random_card active_positions) s main s2 ∧
      main.length = 4 := by
  obtain ⟨main, s2, hrun, hl⟩ :=
    generateRandomCardGo_spec active_positions (List.replicate 4 0) s
  exact ⟨main, s2, hrun, by simpa using hl⟩

/-! ### generate_matching_card characterization -/

theorem generate_matching_card_spec
    (main active mm md : List Nat) (n : Nat)
    (hmm_nd : mm.Nodup) (hmd_nd : md.Nodup)
    (hactive_nd : active.Nodup)
    (hdisj : ∀ p ∈ mm, p ∉ md)
    (hmm4 : ∀ p ∈ mm, p < 4) (hmd4 : ∀ p ∈ md, p < 4)
    (hactive4 : ∀ p ∈ active, p < 4)
    (hlow : mm.length ≤ n)
    (hhigh : n - mm.length ≤
      (active.filter (fun p => decide (p ∉ mm ∧ p ∉ md))).length)
    (s : List Nat) :
    ∃ card s2 extra,
      RunsTo (generate_matching_card main active n mm md) s card s2 ∧
      card.length = 4 ∧
      extra.Nodup ∧
      extra ⊆ active.filter (fun p => decide (p ∉ mm ∧ p ∉ md)) ∧
      extra.length = n - mm.length ∧
      (∀ q, q ∈ mm ∨ q ∈ extra → card.getD q 0 = main.getD q 0) ∧
      (∀ q, q ∈ md ∨
            (q ∈ active.filter (fun p => decide (p ∉ mm ∧ p ∉ md)) ∧ q ∉ extra) →
        card.getD q 0 ≠ main.getD q 0) := by
  set free := active.filter (fun p => decide (p ∉ mm ∧ p ∉ md)) with hfree
  have hfree_nd : free.Nodup := List.Nodup.filter _ hactive_nd
  have hfree4 : ∀ p ∈ free, p < 4 := fun p hp =>
    hactive4 p (List.mem_filter.mp hp).1
  have hmem_free : ∀ q ∈ free, q ∉ mm ∧ q ∉ md := by
    intro q hq
    have := (List.mem_filter.mp hq).2
    simpa using this
  have hdedup_mm : mm.dedup = mm := List.Nodup.dedup hmm_nd
  have hdedup_md : md.dedup = md := List.Nodup.dedup hmd_nd
  have key : generate_matching_card main active n mm md =
      (setDiffers main md (setMatches main mm (List.replicate 4 0)) >>= fun card =>
        sampleG free (n - mm.length) >>= fun extra_match =>
        fillFree main extra_match free card) := by
    unfold generate_matching_card
    rw [hdedup_mm, hdedup_md]
    have hc1 : (mm.any (fun p => decide (p ∈ md))) = false := by
      rw [List.any_eq_false]
      intro p hp
      simpa using hdisj p hp
    have hc2 : ¬ (n < mm.length ∨
        (List.filter (fun p => decide (p ∉ mm ∧ p ∉ md)) active).length <
          n - mm.length) := by
      rw [← hfree]
      omega
    simp only [hc1, Bool.false_eq_true, if_false]
    rw [if_neg hc2]
  obtain ⟨hml, hmq⟩ := setMatches_spec main mm (List.replicate 4 0)
    (by intro p hp; simpa using hmm4 p hp)
  set c1 := setMatches main mm (List.replicate 4 0) with hc1def
  have hc1len : c1.length = 4 := by simpa using hml
  obtain ⟨c2, s1, hrun2, hc2len, hq2⟩ := setDiffers_spec main md c1
    (by intro p hp; rw [hc1len]; exact hmd4 p hp) s
  obtain ⟨extra, s2', hrun3, hexlen, hexnd, hexsub⟩ :=
    sampleG_spec free (n - mm.length) hhigh hfree_nd s1
  obtain ⟨c3, s2, hrun4, hc3len, hq4⟩ := fillFree_spec main extra free c2
    (by intro p hp; rw [hc2len, hc1len]; exact hfree4 p hp) s2'
  refine ⟨c3, s2, extra, ?_, by rw [hc3len, hc2len, hc1len], hexnd, hexsub, hexlen, ?_, ?_⟩
  · rw [key]
    exact runsTo_bind hrun2 (runsTo_bind hrun3 hrun4)
  · intro q hq
    rcases hq with hq | hq
    · have hqnf : q ∉ free := fun hc => (hmem_free q hc).1 hq
      have hqnm : q ∉ md := hdisj q hq
      rw [(hq4 q).2 hqnf, (hq2 q).2 hqnm]
      exact (hmq q).1 hq
    · have hqf : q ∈ free := hexsub hq
      exact ((hq4 q).1 hqf).1 hq
  · intro q hq
    rcases hq with hq | ⟨hqf, hqe⟩
    · have hqnf : q ∉ free := fun hc => (hmem_free q hc).2 hq
      rw [(hq4 q).2 hqnf]
      exact (hq2 q).1 hq
    · exact ((hq4 q).1 hqf).2 hqe

/-- Exact-match-count corollary of `generate_matching_card_spec`: the
returned card matches `main` on exactly `n` of the active positions. -/
theorem generate_matching_card_count
    (main active mm md : List Nat) (n : Nat)
    (hmm_nd : mm.Nodup) (hmd_nd : md.Nodup)
    (hactive_nd : active.Nodup)
    (hmm_sub : mm ⊆ active) (hmd_sub : md ⊆ active)
    (hdisj : ∀ p ∈ mm, p ∉ md)
    (hactive4 : ∀ p ∈ active, p < 4)
    (hlow : mm.length ≤ n)
    (hhigh : n - mm.length ≤
      (active.filter (fun p => decide (p ∉ mm ∧ p ∉ md))).length)
    (s : List Nat) :
    ∃ card s2,
      RunsTo (generate_matching_card main active n mm md) s card s2 ∧
      card.length = 4 ∧
      count_rule_matches main card active = n ∧
      (∀ p ∈ mm, card.getD p 0 = main.getD p 0) ∧
      (∀ p ∈ md, card.getD p 0 ≠ main.getD p 0) := by
  obtain ⟨card, s2, extra, hrun, hlen, hexnd, hexsub, hexlen, hmatch, hdiff⟩ :=
    generate_matching_card_spec main active mm md n hmm_nd hmd_nd hactive_nd
      hdisj (fun p hp => hactive4 p (hmm_sub hp)) (fun p hp => hactive4 p (hmd_sub hp))
      hactive4 hlow hhigh s
  set free := active.filter (fun p => decide (p ∉ mm ∧ p ∉ md)) with hfree
  have hmem_free : ∀ q, q ∈ free ↔ (q ∈ active ∧ q ∉ mm ∧ q ∉ md) := by
    intro q
    rw [hfree, List.mem_filter]
    simp
  have hiff : ∀ q ∈ active,
      (main.getD q 0 == card.getD q 0) = decide (q ∈ mm ++ extra) := by
    intro q hq
    by_cases hqm : q ∈ mm
    · have heq : main.getD q 0 = card.getD q 0 := (hmatch q (Or.inl hqm)).symm
      rw [heq]
      simp [List.mem_append, hqm]
    · by_cases hqd : q ∈ md
      · have h1 : card.getD q 0 ≠ main.getD q 0 := hdiff q (Or.inl hqd)
        have h2 : q ∉ extra := by
          intro hc
          exact ((hmem_free q).mp (hexsub hc)).2.2 hqd
        have hne : (main.getD q 0 == card.getD q 0) = false :=
          beq_eq_false_iff_ne.mpr (fun hc => h1 hc.symm)
        rw [hne]
        simp [List.mem_append, hqm, h2]
      · have hqf : q ∈ free := (hmem_free q).mpr ⟨hq, hqm, hqd⟩
        by_cases hqe : q ∈ extra
        · have heq : main.getD q 0 = card.getD q 0 := (hmatch q (Or.inr hqe)).symm
          rw [heq]
          simp [List.mem_append, hqe]
        · have h1 : card.getD q 0 ≠ main.getD q 0 := hdiff q (Or.inr ⟨hqf, hqe⟩)
          have hne : (main.getD q 0 == card.getD q 0) = false :=
            beq_eq_false_iff_ne.mpr (fun hc => h1 hc.symm)
          rw [hne]
          simp [List.mem_append, hqm, hqe]
  have hcount : count_rule_matches main card active =
      active.countP (fun q => decide (q ∈ mm ++ extra)) := by
    unfold count_rule_matches
    apply List.countP_congr
    intro q hq
    rw [hiff q hq]
  have hnd_app : (mm ++ extra).Nodup := by
    refine List.Nodup.append hmm_nd hexnd ?_
    intro a ham hae
    exact ((hmem_free a).mp (hexsub hae)).2.1 ham
  have hsub_app : (mm ++ extra) ⊆ active := by
    intro a ha
    rcases List.mem_append.mp ha with h | h
    · exact hmm_sub h
    · exact ((hmem_free a).mp (hexsub h)).1
  refine ⟨card, s2, hrun, hlen, ?_,
    fun p hp => hmatch p (Or.inl hp), fun p hp => hdiff p (Or.inl hp)⟩
  rw [hcount, countP_mem_eq_length active (mm ++ extra) hactive_nd hnd_app hsub_app]
  rw [List.length_append]
  omega

/-! ### generate_not_both_rule_match characterization -/

theorem generate_not_both_rule_match_spec
    (main active rf : List Nat) (n : Nat)
    (hactive_nd : active.Nodup) (hactive4 : ∀ p ∈ active, p < 4)
    (hrf_sub : rf ⊆ active) (hrf_nd : rf.Nodup) (hrf_len : rf.length = 2)
    (hn1 : 1 ≤ n)
    (hn_feas : n ≤ (active.filter (fun p => decide (p ∉ rf))).length + 1)
    (s : List Nat) :
    ∃ card s2,
      RunsTo (generate_not_both_rule_match main active rf n) s card s2 ∧
      card.length = 4 ∧
      count_rule_matches main card rf ≤ 1 := by
  set non_rule := active.filter (fun p => decide (p ∉ rf)) with hnr
  have key : generate_not_both_rule_match main active rf n =
      (randintG (n - non_rule.length) (min (rf.length - 1) n) >>= fun n_rf =>
        sampleG rf n_rf >>= fun matched_rf =>
        generate_matching_card main active n matched_rf
          (rf.filter (fun p => decide (p ∉ matched_rf)))) := rfl
  have hminmax : n - non_rule.length ≤ min (rf.length - 1) n := by
    rw [hrf_len]
    omega
  obtain ⟨n_rf, s1, hrun1, hnrf_lo, hnrf_hi⟩ :=
    randintG_spec (n - non_rule.length) (min (rf.length - 1) n) hminmax s
  have hnrf1 : n_rf ≤ 1 := by
    rw [hrf_len] at hnrf_hi
    omega
  obtain ⟨matched, s2', hrun2, hmlen, hmnd, hmsub⟩ :=
    sampleG_spec rf n_rf (by omega) hrf_nd s1
  set unmatched := rf.filter (fun p => decide (p ∉ matched)) with hum
  have hun_nd : unmatched.Nodup := List.Nodup.filter _ hrf_nd
  have hun_sub : unmatched ⊆ rf := fun p hp => (List.mem_filter.mp hp).1
  have hdisj : ∀ p ∈ matched, p ∉ unmatched := by
    intro p hp hc
    have := (List.mem_filter.mp hc).2
    simp at this
    exact this hp
  have hcover : ∀ q ∈ rf, q ∉ matched → q ∈ unmatched := by
    intro q hq hqm
    rw [hum, List.mem_filter]
    exact ⟨hq, by simpa using hqm⟩
  have hfree_eq : active.filter (fun p => decide (p ∉ matched ∧ p ∉ unmatched)) =
      non_rule := by
    rw [hnr]
    apply List.filter_congr
    intro x _
    by_cases hxr : x ∈ rf
    · by_cases hxm : x ∈ matched
      · simp [hxm, hxr]
      · simp [hxm, hcover x hxr hxm, hxr]
    · have hxm : x ∉ matched := fun hc => hxr (hmsub hc)
      have hxu : x ∉ unmatched := fun hc => hxr (hun_sub hc)
      simp [hxm, hxu, hxr]
  obtain ⟨card, s2, extra, hrun3, hclen, hexnd, hexsub, hexlen, hmatch, hdiff⟩ :=
    generate_matching_card_spec main active matched unmatched n
      hmnd hun_nd hactive_nd hdisj
      (fun p hp => hactive4 p (hrf_sub (hmsub hp)))
      (fun p hp => hactive4 p (hrf_sub (hun_sub hp)))
      hactive4
      (by omega)
      (by rw [hfree_eq]; omega)
      s2'
  refine ⟨card, s2, ?_, hclen, ?_⟩
  · rw [key]
    exact runsTo_bind hrun1 (runsTo_bind hrun2 hrun3)
  · have hextra_nr : extra ⊆ non_rule := by
      rw [← hfree_eq]
      exact hexsub
    have hiff : ∀ q ∈ rf,
        (main.getD q 0 == card.getD q 0) = decide (q ∈ matched) := by
      intro q hq
      by_cases hqm : q ∈ matched
      · have heq : main.getD q 0 = card.getD q 0 := (hmatch q (Or.inl hqm)).symm
        rw [heq]
        simp [hqm]
      · have hqu : q ∈ unmatched := hcover q hq hqm
        have h1 : card.getD q 0 ≠ main.getD q 0 := hdiff q (Or.inl hqu)
        have hne : (main.getD q 0 == card.getD q 0) = false :=
          beq_eq_false_iff_ne.mpr (fun hc => h1 hc.symm)
        rw [hne]
        simp [hqm]
    have : count_rule_matches main card rf = rf.countP (fun q => decide (q ∈ matched)) := by
      unfold count_rule_matches
      apply List.countP_congr
      intro q hq
      rw [hiff q hq]
    rw [this, countP_mem_eq_length rf matched hrf_nd hmnd hmsub]
    omega

/-! ### Correct-card, low-count and exact-pair constructions -/

/-- `generate_matching_card` with no pins: the result shares at most `n`
values with `main` on any duplicate-free subset of the active positions. -/
theorem generate_matching_card_low_count
    (main active rf : List Nat) (n : Nat)
    (hactive_nd : active.Nodup) (hactive4 : ∀ p ∈ active, p < 4)
    (hrf_sub : rf ⊆ active) (hrf_nd : rf.Nodup)
    (hn : n ≤ active.length) (s : List Nat) :
    ∃ card s2,
      RunsTo (generate_matching_card main active n [] []) s card s2 ∧
      card.length = 4 ∧
      count_rule_matches main card rf ≤ n := by
  have hfree_eq : active.filter
      (fun p => decide (p ∉ ([] : List Nat) ∧ p ∉ ([] : List Nat))) = active := by
    apply List.filter_eq_self.mpr
    intro a _
    simp
  obtain ⟨card, s2, extra, hrun, hclen, hexnd, hexsub, hexlen, hmatch, hdiff⟩ :=
    generate_matching_card_spec main active [] [] n
      List.nodup_nil List.nodup_nil hactive_nd
      (by intro p hp; exact absurd hp (List.not_mem_nil p))
      (by intro p hp; exact absurd hp (List.not_mem_nil p))
      (by intro p hp; exact absurd hp (List.not_mem_nil p))
      hactive4 (by simp)
      (by rw [hfree_eq]; simpa using hn) s
  refine ⟨card, s2, hrun, hclen, ?_⟩
  have hiff : ∀ q ∈ rf,
      (main.getD q 0 == card.getD q 0) = decide (q ∈ extra) := by
    intro q hq
    by_cases hqe : q ∈ extra
    · have heq : main.getD q 0 = card.getD q 0 := (hmatch q (Or.inr hqe)).symm
      rw [heq]
      simp [hqe]
    · have hqf : q ∈ active.filter
          (fun p => decide (p ∉ ([] : List Nat) ∧ p ∉ ([] : List Nat))) := by
        rw [hfree_eq]
        exact hrf_sub hq
      have h1 : card.getD q 0 ≠ main.getD q 0 := hdiff q (Or.inr ⟨hqf, hqe⟩)
      have hne : (main.getD q 0 == card.getD q 0) = false :=
        beq_eq_false_iff_ne.mpr (fun hc => h1 hc.symm)
      rw [hne]
      simp [hqe]
  have hcc : count_rule_matches main card rf =
      rf.countP (fun q => decide (q ∈ extra)) := by
    unfold count_rule_matches
    apply List.countP_congr
    intro q hq
    rw [hiff q hq]
  rw [hcc]
  calc rf.countP (fun q => decide (q ∈ extra)) ≤ extra.length :=
        countP_mem_le_length rf extra hrf_nd
    _ = n := by simpa using hexlen

/-- `generate_matching_card` pinning a full pair and its complement: the
result matches `main` exactly on the pair among the active positions. -/
theorem generate_matching_card_exact_pair
    (main active pf : List Nat)
    (hactive_nd : active.Nodup) (hactive4 : ∀ p ∈ active, p < 4)
    (hpf_sub : pf ⊆ active) (hpf_nd : pf.Nodup) (hpf_len : pf.length = 2)
    (s : List Nat) :
    ∃ card s2,
      RunsTo (generate_matching_card main active 2 pf
        (active.filter (fun p => decide (p ∉ pf)))) s card s2 ∧
      card.length = 4 ∧
      matchesExactlyOn main card pf active := by
  set non_pf := active.filter (fun p => decide (p ∉ pf)) with hnpf
  have hnpf_nd : non_pf.Nodup := List.Nodup.filter _ hactive_nd
  have hnpf_sub : non_pf ⊆ active := fun p hp => (List.mem_filter.mp hp).1
  have hdisj : ∀ p ∈ pf, p ∉ non_pf := by
    intro p hp hc
    have := (List.mem_filter.mp hc).2
    simp at this
    exact this hp
  have hfree_eq : active.filter (fun p => decide (p ∉ pf ∧ p ∉ non_pf)) = [] := by
    apply List.filter_eq_nil_iff.mpr
    intro a ha
    by_cases hap : a ∈ pf
    · simp [hap]
    · have : a ∈ non_pf := by
        rw [hnpf, List.mem_filter]
        exact ⟨ha, by simpa using hap⟩
      simp [this]
  obtain ⟨card, s2, extra, hrun, hclen, hexnd, hexsub, hexlen, hmatch, hdiff⟩ :=
    generate_matching_card_spec main active pf non_pf 2
      hpf_nd hnpf_nd hactive_nd hdisj
      (fun p hp => hactive4 p (hpf_sub hp))
      (fun p hp => hactive4 p (hnpf_sub hp))
      hactive4 (by omega) (by rw [hfree_eq]; simp [hpf_len]) s
  refine ⟨card, s2, hrun, hclen, ?_, ?_⟩
  · intro p hp
    exact hmatch p (Or.inl hp)
  · intro p hp hpf
    apply hdiff
    left
    rw [hnpf, List.mem_filter]
    exact ⟨hp, by simpa using hpf⟩

/-- `_build_correct` always returns a card matching `main` on both rule
features. -/
theorem buildCorrect_spec
    (main active rf : List Nat) (rule_num : Nat)
    (hactive_nd : active.Nodup) (hactive4 : ∀ p ∈ active, p < 4)
    (hrf_sub : rf ⊆ active) (hrf_nd : rf.Nodup) (hrf_len : rf.length = 2)
    (s : List Nat) :
    ∃ card s2,
      RunsTo (buildCorrect main rf (active.filter (fun p => decide (p ∉ rf)))
        active rule_num) s card s2 ∧
      card.length = 4 ∧
      matchesAllOn main card rf := by
  set non_rf := active.filter (fun p => decide (p ∉ rf)) with hnrf
  by_cases h56 : rule_num = 5 ∨ rule_num = 6
  · have key : buildCorrect main rf non_rf active rule_num =
        (randintG 0 (min 1 non_rf.length) >>= fun n_extra =>
          generate_matching_card main active (2 + n_extra) rf []) := by
      unfold buildCorrect
      rw [if_pos h56]
    obtain ⟨bonus, s1, hrun1, _, hbhi⟩ := randintG_spec 0 (min 1 non_rf.length) (by omega) s
    have hfree_eq : active.filter (fun p => decide (p ∉ rf ∧ p ∉ ([] : List Nat))) =
        non_rf := by
      rw [hnrf]
      apply List.filter_congr
      intro x _
      simp
    obtain ⟨card, s2, extra, hrun2, hclen, _, _, _, hmatch, _⟩ :=
      generate_matching_card_spec main active rf [] (2 + bonus)
        hrf_nd List.nodup_nil hactive_nd
        (by intro p _; exact List.not_mem_nil p)
        (fun p hp => hactive4 p (hrf_sub hp))
        (by intro p hp; exact absurd hp (List.not_mem_nil p))
        hactive4 (by omega)
        (by rw [hfree_eq, hrf_len]; omega) s1
    refine ⟨card, s2, ?_, hclen, fun p hp => hmatch p (Or.inl hp)⟩
    rw [key]
    exact runsTo_bind hrun1 hrun2
  · have key : buildCorrect main rf non_rf active rule_num =
        generate_matching_card main active 2 rf non_rf := by
      unfold buildCorrect
      rw [if_neg h56]
    obtain ⟨card, s2, hrun, hclen, hex⟩ :=
      generate_matching_card_exact_pair main active rf
        hactive_nd hactive4 hrf_sub hrf_nd hrf_len s
    refine ⟨card, s2, ?_, hclen, hex.1⟩
    rw [key]
    exact hrun

/-- `_build_wrong_cards` returns three cards, each of length 4 and each
matching `main` on at most one of the two rule-feature positions. -/
theorem buildWrongCards_spec
    (main active rf : List Nat) (rule_num : Nat)
    (hactive_nd : active.Nodup) (hactive4 : ∀ p ∈ active, p < 4)
    (hrf_sub : rf ⊆ active) (hrf_nd : rf.Nodup) (hrf_len : rf.length = 2)
    (h1r : 1 ≤ rule_num) (h6r : rule_num ≤ 6)
    (hact1 : 1 ≤ active.length)
    (hnr1 : 1 ≤ (active.filter (fun p => decide (p ∉ rf))).length)
    (hnr2 : rule_num = 6 → 2 ≤ (active.filter (fun p => decide (p ∉ rf))).length)
    (s : List Nat) :
    ∃ wrong s2,
      RunsTo (buildWrongCards main rf active rule_num) s wrong s2 ∧
      wrong.length = 3 ∧
      ∀ w ∈ wrong, w.length = 4 ∧ count_rule_matches main w rf ≤ 1 := by
  have hmem3 : ∀ (a b c w : List Nat), w ∈ [a, b, c] → w = a ∨ w = b ∨ w = c := by
    intro a b c w hw
    simpa using hw
  interval_cases rule_num
  · obtain ⟨a, sa, hra, hal, hac⟩ :=
      generate_matching_card_low_count main active rf 0 hactive_nd hactive4
        hrf_sub hrf_nd (by omega) s
    obtain ⟨b, sb, hrb, hbl, hbc⟩ :=
      generate_matching_card_low_count main active rf 1 hactive_nd hactive4
        hrf_sub hrf_nd hact1 sa
    obtain ⟨c, sc, hrc, hcl, hcc⟩ :=
      generate_not_both_rule_match_spec main active rf 2 hactive_nd hactive4
        hrf_sub hrf_nd hrf_len (by omega) (by omega) sb
    refine ⟨[a, b, c], sc, ?_, rfl, ?_⟩
    · exact runsTo_bind hra (runsTo_bind hrb (runsTo_bind hrc (runsTo_pure _ _)))
    · intro w hw
      rcases hmem3 a b c w hw with h | h | h <;> subst h
      · exact ⟨hal, by omega⟩
      · exact ⟨hbl, hbc⟩
      · exact ⟨hcl, hcc⟩
  · obtain ⟨a, sa, hra, hal, hac⟩ :=
      generate_matching_card_low_count main active rf 1 hactive_nd hactive4
        hrf_sub hrf_nd hact1 s
    obtain ⟨b, sb, hrb, hbl, hbc⟩ :=
      generate_not_both_rule_match_spec main active rf 2 hactive_nd hactive4
        hrf_sub hrf_nd hrf_len (by omega) (by omega) sa
    obtain ⟨c, sc, hrc, hcl, hcc⟩ :=
      generate_not_both_rule_match_spec main active rf 2 hactive_nd hactive4
        hrf_sub hrf_nd hrf_len (by omega) (by omega) sb
    refine ⟨[a, b, c], sc, ?_, rfl, ?_⟩
    · exact runsTo_bind hra (runsTo_bind hrb (runsTo_bind hrc (runsTo_pure _ _)))
    · intro w hw
      rcases hmem3 a b c w hw with h | h | h <;> subst h
      · exact ⟨hal, hac⟩
      · exact ⟨hbl, hbc⟩
      · exact ⟨hcl, hcc⟩
  · obtain ⟨a, sa, hra, hal, hac⟩ :=
      generate_matching_card_low_count main active rf 0 hactive_nd hactive4
        hrf_sub hrf_nd (by omega) s
    obtain ⟨b, sb, hrb, hbl, hbc⟩ :=
      generate_matching_card_low_count main active rf 1 hactive_nd hactive4
        hrf_sub hrf_nd hact1 sa
    obtain ⟨c, sc, hrc, hcl, hcc⟩ :=
      generate_not_both_rule_match_spec main active rf 2 hactive_nd hactive4
        hrf_sub hrf_nd hrf_len (by omega) (by omega) sb
    refine ⟨[a, b, c], sc, ?_, rfl, ?_⟩
    · exact runsTo_bind hra (runsTo_bind hrb (runsTo_bind hrc (runsTo_pure _ _)))
    · intro w hw
      rcases hmem3 a b c w hw with h | h | h <;> subst h
      · exact ⟨hal, by omega⟩
      · exact ⟨hbl, hbc⟩
      · exact ⟨hcl, hcc⟩
  · obtain ⟨a, sa, hra, hal, hac⟩ :=
      generate_matching_card_low_count main active rf 1 hactive_nd hactive4
        hrf_sub hrf_nd hact1 s
    obtain ⟨b, sb, hrb, hbl, hbc⟩ :=
      generate_matching_card_low_count main active rf 1 hactive_nd hactive4
        hrf_sub hrf_nd hact1 sa
    obtain ⟨c, sc, hrc, hcl, hcc⟩ :=
      generate_not_both_rule_match_spec main active rf 2 hactive_nd hactive4
        hrf_sub hrf_nd hrf_len (by omega) (by omega) sb
    refine ⟨[a, b, c], sc, ?_, rfl, ?_⟩
    · exact runsTo_bind hra (runsTo_bind hrb (runsTo_bind hrc (runsTo_pure _ _)))
    · intro w hw
      rcases hmem3 a b c w hw with h | h | h <;> subst h
      · exact ⟨hal, hac⟩
      · exact ⟨hbl, hbc⟩
      · exact ⟨hcl, hcc⟩
  · obtain ⟨a, sa, hra, hal, hac⟩ :=
      generate_matching_card_low_count main active rf 1 hactive_nd hactive4
        hrf_sub hrf_nd hact1 s
    obtain ⟨b, sb, hrb, hbl, hbc⟩ :=
      generate_not_both_rule_match_spec main active rf 2 hactive_nd hactive4
        hrf_sub hrf_nd hrf_len (by omega) (by omega) sa
    obtain ⟨c, sc, hrc, hcl, hcc⟩ :=
      generate_not_both_rule_match_spec main active rf 2 hactive_nd hactive4
        hrf_sub hrf_nd hrf_len (by omega) (by omega) sb
    refine ⟨[a, b, c], sc, ?_, rfl, ?_⟩
    · exact runsTo_bind hra (runsTo_bind hrb (runsTo_bind hrc (runsTo_pure _ _)))
    · intro w hw
      rcases hmem3 a b c w hw with h | h | h <;> subst h
      · exact ⟨hal, hac⟩
      · exact ⟨hbl, hbc⟩
      · exact ⟨hcl, hcc⟩
  · obtain ⟨n, s0, hrn, hnmem⟩ := choiceG_spec [2, 3] (by simp) s
    have hn23 : n = 2 ∨ n = 3 := by simpa using hnmem
    have hnfeas : n ≤ (active.filter (fun p => decide (p ∉ rf))).length + 1 := by
      rcases hn23 with h | h <;> subst h
      · omega
      · have := hnr2 rfl
        omega
    obtain ⟨a, sa, hra, hal, hac⟩ :=
      generate_not_both_rule_match_spec main active rf n hactive_nd hactive4
        hrf_sub hrf_nd hrf_len (by omega) hnfeas s0
    obtain ⟨b, sb, hrb, hbl, hbc⟩ :=
      generate_not_both_rule_match_spec main active rf 2 hactive_nd hactive4
        hrf_sub hrf_nd hrf_len (by omega) (by omega) sa
    obtain ⟨c, sc, hrc, hcl, hcc⟩ :=
      generate_not_both_rule_match_spec main active rf 2 hactive_nd hactive4
        hrf_sub hrf_nd hrf_len (by omega) (by omega) sb
    refine ⟨[a, b, c], sc, ?_, rfl, ?_⟩
    · exact runsTo_bind hrn
        (runsTo_bind hra (runsTo_bind hrb (runsTo_bind hrc (runsTo_pure _ _))))
    · intro w hw
      rcases hmem3 a b c w hw with h | h | h <;> subst h
      · exact ⟨hal, hac⟩
      · exact ⟨hbl, hbc⟩
      · exact ⟨hcl, hcc⟩

/-! ### Option shuffling -/

theorem getD_map_lt {α : Type} (l : List Nat) (f : Nat → α) (d : α) (k : Nat)
    (h : k < l.length) :
    (l.map f).getD k d = f (l.get ⟨k, h⟩) := by
  rw [getD_eq_get (l.map f) k d (by simpa using h)]
  simp

/-- A length-4 list is recovered by reading positions 0-3. -/
theorem map_getD_range4 (l : List (List Nat)) (hlen : l.length = 4) :
    (List.range 4).map (fun i => l.getD i []) = l := by
  match l with
  | [a, b, c, d] => rfl
  | [] => simp at hlen
  | [a] => simp at hlen
  | [a, b] => simp at hlen
  | [a, b, c] => simp at hlen
  | a :: b :: c :: d :: e :: t => simp at hlen

/-- The option shuffle of `generate_trial` (`random.shuffle` on
`list(range(4))` followed by reindexing): the recorded post-shuffle
correct index points at options[0], every other slot holds one of the
wrong cards, and the shuffled list holds exactly the original options. -/
theorem shuffle_options_spec (options : List (List Nat))
    (hlen : options.length = 4) (s : List Nat) :
    ∃ perm s2, RunsTo (sampleG (List.range 4) 4) s perm s2 ∧
      perm.length = 4 ∧
      (perm.map (fun i => options.getD i [])).length = 4 ∧
      perm.indexOf 0 < 4 ∧
      (perm.map (fun i => options.getD i [])).getD (perm.indexOf 0) [] =
        options.getD 0 [] ∧
      (∀ k, k < 4 → k ≠ perm.indexOf 0 → ∃ j, j < 4 ∧ j ≠ 0 ∧
        (perm.map (fun i => options.getD i [])).getD k [] = options.getD j []) ∧
      (∀ o, o ∈ options → o ∈ perm.map (fun i => options.getD i [])) := by
  obtain ⟨perm, s2, hrun, hplen, hpnd, hpsub⟩ :=
    sampleG_spec (List.range 4) 4 (by simp) (List.nodup_range 4) s
  have hperm : perm.Perm (List.range 4) := by
    apply List.Subperm.perm_of_length_le (List.Nodup.subperm hpnd hpsub)
    simp [hplen]
  have h0mem : 0 ∈ perm := hperm.mem_iff.mpr (by simp)
  have hidx_lt : perm.indexOf 0 < perm.length := List.indexOf_lt_length.mpr h0mem
  have hidx4 : perm.indexOf 0 < 4 := by omega
  have hget_idx : perm.get ⟨perm.indexOf 0, hidx_lt⟩ = 0 := List.indexOf_get hidx_lt
  refine ⟨perm, s2, hrun, hplen, by simp [hplen], hidx4, ?_, ?_, ?_⟩
  · rw [getD_map_lt perm _ [] (perm.indexOf 0) hidx_lt, hget_idx]
  · intro k hk hkne
    have hklt : k < perm.length := by omega
    refine ⟨perm.get ⟨k, hklt⟩, ?_, ?_, ?_⟩
    · have : perm.get ⟨k, hklt⟩ ∈ List.range 4 := hpsub (List.get_mem perm k hklt)
      simpa using this
    · intro hc
      have : perm.get ⟨k, hklt⟩ = perm.get ⟨perm.indexOf 0, hidx_lt⟩ := by
        rw [hget_idx, hc]
      have := (List.Nodup.get_inj_iff hpnd).mp this
      exact hkne (by simpa using congrArg Fin.val this)
    · rw [getD_map_lt perm _ [] k hklt]
  · intro o ho
    have : o ∈ (List.range 4).map (fun i => options.getD i []) := by
      rw [map_getD_range4 options hlen]
      exact ho
    exact ((hperm.map (fun i => options.getD i [])).mem_iff).mpr this

/-! ### generate_trial characterization -/

theorem generate_trial_spec
    (rule_num : Nat) (rf active : List Nat) (is_trans : Bool)
    (prf : Option (List Nat))
    (hactive_nd : active.Nodup) (hactive4 : ∀ p ∈ active, p < 4)
    (hact1 : 1 ≤ active.length)
    (hrf_sub : rf ⊆ active) (hrf_nd : rf.Nodup) (hrf_len : rf.length = 2)
    (h1r : 1 ≤ rule_num) (h6r : rule_num ≤ 6)
    (hnr1 : 1 ≤ (active.filter (fun p => decide (p ∉ rf))).length)
    (hnr2 : rule_num = 6 → 2 ≤ (active.filter (fun p => decide (p ∉ rf))).length)
    (hprf : ∀ pf, prf = some pf → pf ⊆ active ∧ pf.Nodup ∧ pf.length = 2 ∧
      rf.countP (fun p => decide (p ∈ pf)) ≤ 1)
    (s : List Nat) :
    ∃ t s2, RunsTo (generate_trial rule_num rf active is_trans prf) s t s2 ∧
      t.rule = rule_num ∧ t.rule_features = rf ∧ t.active_positions = active ∧
      t.is_transition = is_trans ∧ t.trial_index_in_rule = 0 ∧
      t.prevRuleFeatures = (if is_trans = true then prf else none) ∧
      t.main.length = 4 ∧ t.options.length = 4 ∧ t.correct < 4 ∧
      matchesAllOn t.main (t.options.getD t.correct []) rf ∧
      (∀ k, k < 4 → k ≠ t.correct →
        count_rule_matches t.main (t.options.getD k []) rf ≤ 1) ∧
      (is_trans = true → ∀ pf, prf = some pf →
        ∃ o ∈ t.options, matchesExactlyOn t.main o pf active) := by
  obtain ⟨main, sm, hmrun, hmlen⟩ := generate_random_card_spec active s
  obtain ⟨correct, sc, hcrun, hclen, hcall⟩ :=
    buildCorrect_spec main active rf rule_num hactive_nd hactive4
      hrf_sub hrf_nd hrf_len sm
  obtain ⟨wrong, sw, hwrun, hwlen, hwprop⟩ :=
    buildWrongCards_spec main active rf rule_num hactive_nd hactive4
      hrf_sub hrf_nd hrf_len h1r h6r hact1 hnr1 hnr2 sc
  cases is_trans with
  | true =>
      cases prf with
      | some pf =>
          obtain ⟨hpf_sub, hpf_nd, hpf_len, hpf_inter⟩ := hprf pf rfl
          have hempty : pf.isEmpty = false := by
            match pf, hpf_len with
            | a :: t, _ => rfl
          obtain ⟨tcard, st, htrun, htlen, htex⟩ :=
            generate_matching_card_exact_pair main active pf hactive_nd hactive4
              hpf_sub hpf_nd hpf_len sw
          have htcount : count_rule_matches main tcard rf ≤ 1 := by
            have hiff : ∀ q ∈ rf,
                (main.getD q 0 == tcard.getD q 0) = decide (q ∈ pf) := by
              intro q hq
              by_cases hqp : q ∈ pf
              · have heq : main.getD q 0 = tcard.getD q 0 := (htex.1 q hqp).symm
                rw [heq]
                simp [hqp]
              · have h1 : tcard.getD q 0 ≠ main.getD q 0 := htex.2 q (hrf_sub hq) hqp
                have hne : (main.getD q 0 == tcard.getD q 0) = false :=
                  beq_eq_false_iff_ne.mpr (fun hc => h1 hc.symm)
                rw [hne]
                simp [hqp]
            have : count_rule_matches main tcard rf =
                rf.countP (fun q => decide (q ∈ pf)) := by
              unfold count_rule_matches
              apply List.countP_congr
              intro q hq
              rw [hiff q hq]
            omega
          set wrong2 := wrong.dropLast ++ [tcard] with hw2
          have hw2len : wrong2.length = 3 := by
            rw [hw2, List.length_append, List.length_dropLast, hwlen]
            simp
          have hw2prop : ∀ w ∈ wrong2,
              w.length = 4 ∧ count_rule_matches main w rf ≤ 1 := by
            intro w hw
            rcases List.mem_append.mp hw with h | h
            · exact hwprop w ((List.dropLast_sublist wrong).subset h)
            · have : w = tcard := by simpa using h
              subst this
              exact ⟨htlen, htcount⟩
          have htmem : tcard ∈ wrong2 := by
            rw [hw2]
            exact List.mem_append_right _ (by simp)
          obtain ⟨perm, s2, hprun, hplen, hslen, hidx4, hgetidx, hgetk, hmemshuf⟩ :=
            shuffle_options_spec (correct :: wrong2) (by simp [hw2len]) st
          refine ⟨{ main := main
                    main_code := card_to_code main
                    main_path := "cards/" ++ card_to_code main ++ ".png"
                    options := perm.map (fun i => (correct :: wrong2).getD i [])
                    option_codes :=
                      (perm.map (fun i => (correct :: wrong2).getD i [])).map card_to_code
                    option_paths :=
                      (perm.map (fun i => (correct :: wrong2).getD i [])).map
                        (fun c => "cards/" ++ card_to_code c ++ ".png")
                    correct := perm.indexOf 0
                    rule := rule_num
                    rule_features := rf
                    active_positions := active
                    is_transition := true
                    prevRuleFeatures := some pf
                    trial_index_in_rule := 0 }, s2, ?_, rfl, rfl, rfl, rfl, rfl,
            by simp, hmlen, hslen, hidx4, ?_, ?_, ?_⟩
          · refine runsTo_bind hmrun (runsTo_bind hcrun (runsTo_bind hwrun ?_))
            show RunsTo
              (if pf.isEmpty = true then _ else _) sw _ s2
            rw [if_neg (by simp [hempty])]
            exact runsTo_bind htrun
              (runsTo_bind (runsTo_pure _ _) (runsTo_bind hprun (runsTo_pure _ _)))
          · show matchesAllOn main
              ((perm.map (fun i => (correct :: wrong2).getD i [])).getD
                (perm.indexOf 0) []) rf
            rw [hgetidx]
            simpa using hcall
          · intro k hk hkne
            obtain ⟨j, hj4, hj0, heq⟩ := hgetk k hk hkne
            show count_rule_matches main
              ((perm.map (fun i => (correct :: wrong2).getD i [])).getD k []) rf ≤ 1
            rw [heq]
            match j, hj0, hj4 with
            | Nat.succ j', _, hj4 =>
                have : (correct :: wrong2).getD (Nat.succ j') [] = wrong2.getD j' [] := by
                  simp
                rw [this]
                exact (hw2prop _ (getD_mem wrong2 j' [] (by omega))).2
          · intro _ pf' hpf'
            have hpfeq : pf' = pf := by
              injection hpf' with h
              exact h.symm
            subst hpfeq
            refine ⟨tcard, ?_, htex⟩
            exact hmemshuf tcard (List.mem_cons_of_mem correct htmem)
      | none =>
          obtain ⟨perm, s2, hprun, hplen, hslen, hidx4, hgetidx, hgetk, hmemshuf⟩ :=
            shuffle_options_spec (correct :: wrong) (by simp [hwlen]) sw
          refine ⟨{ main := main
                    main_code := card_to_code main
                    main_path := "cards/" ++ card_to_code main ++ ".png"
                    options := perm.map (fun i => (correct :: wrong).getD i [])
                    option_codes :=
                      (perm.map (fun i => (correct :: wrong).getD i [])).map card_to_code
                    option_paths :=
                      (perm.map (fun i => (correct :: wrong).getD i [])).map
                        (fun c => "cards/" ++ card_to_code c ++ ".png")
                    correct := perm.indexOf 0
                    rule := rule_num
                    rule_features := rf
                    active_positions := active
                    is_transition := true
                    prevRuleFeatures := none
                    trial_index_in_rule := 0 }, s2, ?_, rfl, rfl, rfl, rfl, rfl,
            by simp, hmlen, hslen, hidx4, ?_, ?_, ?_⟩
          · exact runsTo_bind hmrun (runsTo_bind hcrun (runsTo_bind hwrun
              (runsTo_bind (runsTo_pure _ _) (runsTo_bind hprun (runsTo_pure _ _)))))
          · show matchesAllOn main
              ((perm.map (fun i => (correct :: wrong).getD i [])).getD
                (perm.indexOf 0) []) rf
            rw [hgetidx]
            simpa using hcall
          · intro k hk hkne
            obtain ⟨j, hj4, hj0, heq⟩ := hgetk k hk hkne
            show count_rule_matches main
              ((perm.map (fun i => (correct :: wrong).getD i [])).getD k []) rf ≤ 1
            rw [heq]
            match j, hj0, hj4 with
            | Nat.succ j', _, hj4 =>
                have : (correct :: wrong).getD (Nat.succ j') [] = wrong.getD j' [] := by
                  simp
                rw [this]
                exact (hwprop _ (getD_mem wrong j' [] (by omega))).2
          · intro _ pf' hpf'
            exact absurd hpf' (by simp)
  | false =>
      obtain ⟨perm, s2, hprun, hplen, hslen, hidx4, hgetidx, hgetk, hmemshuf⟩ :=
        shuffle_options_spec (correct :: wrong) (by simp [hwlen]) sw
      refine ⟨{ main := main
                main_code := card_to_code main
                main_path := "cards/" ++ card_to_code main ++ ".png"
                options := perm.map (fun i => (correct :: wrong).getD i [])
                option_codes :=
                  (perm.map (fun i => (correct :: wrong).getD i [])).map card_to_code
                option_paths :=
                  (perm.map (fun i => (correct :: wrong).getD i [])).map
                    (fun c => "cards/" ++ card_to_code c ++ ".png")
                correct := perm.indexOf 0
                rule := rule_num
                rule_features := rf
                active_positions := active
                is_transition := false
                prevRuleFeatures := none
                trial_index_in_rule := 0 }, s2, ?_, rfl, rfl, rfl, rfl, rfl,
        by simp, hmlen, hslen, hidx4, ?_, ?_, ?_⟩
      · exact runsTo_bind hmrun (runsTo_bind hcrun (runsTo_bind hwrun
          (runsTo_bind (runsTo_pure _ _) (runsTo_bind hprun (runsTo_pure _ _)))))
      · show matchesAllOn main
          ((perm.map (fun i => (correct :: wrong).getD i [])).getD
            (perm.indexOf 0) []) rf
        rw [hgetidx]
        simpa using hcall
      · intro k hk hkne
        obtain ⟨j, hj4, hj0, heq⟩ := hgetk k hk hkne
        show count_rule_matches main
          ((perm.map (fun i => (correct :: wrong).getD i [])).getD k []) rf ≤ 1
        rw [heq]
        match j, hj0, hj4 with
        | Nat.succ j', _, hj4 =>
            have : (correct :: wrong).getD (Nat.succ j') [] = wrong.getD j' [] := by
              simp
            rw [this]
            exact (hwprop _ (getD_mem wrong j' [] (by omega))).2
      · intro hc
        exact absurd hc (by simp)

/-! ### Feature-pair assignment -/

theorem pairs3_props : ∀ x ∈ pairs3, x.Nodup ∧ x.length = 2 ∧
    (∀ p ∈ x, p ∈ active3) ∧ (∀ p ∈ x, p ∈ active4) := by decide

theorem pairs4_props : ∀ x ∈ pairs4, x.Nodup ∧ x.length = 2 ∧
    (∀ p ∈ x, p ∈ active4) := by decide

theorem pairs3_sub_pairs4 : ∀ x ∈ pairs3, x ∈ pairs4 := by decide

theorem pair_inter_le_one : ∀ a ∈ pairs3 ++ pairs4, ∀ b ∈ pairs3 ++ pairs4,
    a ≠ b → a.countP (fun p => decide (p ∈ b)) ≤ 1 := by decide

theorem active3_props : active3.Nodup ∧ (∀ p ∈ active3, p < 4) ∧
    1 ≤ active3.length := by decide

theorem active4_props : active4.Nodup ∧ (∀ p ∈ active4, p < 4) ∧
    1 ≤ active4.length := by decide

theorem pairs3_nonrf : ∀ x ∈ pairs3,
    1 ≤ (active3.filter (fun p => decide (p ∉ x))).length := by decide

theorem pairs4_nonrf : ∀ x ∈ pairs4,
    2 ≤ (active4.filter (fun p => decide (p ∉ x))).length := by decide

theorem pickPair_spec (pairs : List (List Nat)) (prev : Option (List Nat))
    (hlen : 2 ≤ pairs.length) (hnd : pairs.Nodup) (s : List Nat) :
    ∃ v s2, RunsTo (pickPair pairs prev) s v s2 ∧ v ∈ pairs ∧
      ∀ pv, prev = some pv → pv ∈ pairs → v ≠ pv := by
  cases prev with
  | none =>
      obtain ⟨v, s2, hrun, hmem⟩ :=
        choiceG_spec pairs (by intro hc; rw [hc] at hlen; simp at hlen) s
      exact ⟨v, s2, hrun, hmem, fun pv h => by cases h⟩
  | some pv =>
      by_cases hin : pv ∈ pairs
      · have hkey : pickPair pairs (some pv) =
            choiceG (pairs.filter (fun p => decide (p ≠ pv))) := by
          show choiceG (if pv ∈ pairs then pairs.filter (fun p => decide (p ≠ pv))
            else pairs) = choiceG (pairs.filter (fun p => decide (p ≠ pv)))
          rw [if_pos hin]
        have hne : pairs.filter (fun p => decide (p ≠ pv)) ≠ [] := by
          match pairs, hlen, hnd with
          | a :: b :: t, _, hnd =>
              have hab : a ≠ b := by
                have := List.nodup_cons.mp hnd
                exact fun hc => this.1 (hc ▸ List.mem_cons_self b t)
              intro hc
              by_cases hapv : a = pv
              · have hbpv : ¬ b = pv := fun hc2 => hab (by rw [hapv, hc2])
                have : b ∈ (a :: b :: t).filter (fun p => decide (p ≠ pv)) := by
                  rw [List.mem_filter]
                  exact ⟨by simp, by simpa using hbpv⟩
                rw [hc] at this
                exact List.not_mem_nil _ this
              · have : a ∈ (a :: b :: t).filter (fun p => decide (p ≠ pv)) := by
                  rw [List.mem_filter]
                  exact ⟨by simp, by simpa using hapv⟩
                rw [hc] at this
                exact List.not_mem_nil _ this
        obtain ⟨v, s2, hrun, hmem⟩ := choiceG_spec _ hne s
        rcases List.mem_filter.mp hmem with ⟨hvp, hvne⟩
        refine ⟨v, s2, ?_, hvp, ?_⟩
        · rw [hkey]
          exact hrun
        · intro pv' h _
          have : pv' = pv := by injection h with h2; exact h2.symm
          subst this
          simpa using hvne
      · have hkey : pickPair pairs (some pv) = choiceG pairs := by
          show choiceG (if pv ∈ pairs then pairs.filter (fun p => decide (p ≠ pv))
            else pairs) = choiceG pairs
          rw [if_neg hin]
        obtain ⟨v, s2, hrun, hmem⟩ :=
          choiceG_spec pairs (by intro hc; rw [hc] at hlen; simp at hlen) s
        refine ⟨v, s2, ?_, hmem, ?_⟩
        · rw [hkey]
          exact hrun
        · intro pv' h hmem2
          have : pv' = pv := by injection h with h2; exact h2.symm
          subst this
          exact absurd hmem2 hin

theorem assignFeatures_spec (s : List Nat) :
    ∃ p1 p2 p3 p4 p5 p6 s2,
      RunsTo assignFeatures s [p1, p2, p3, p4, p5, p6] s2 ∧
      p1 ∈ pairs3 ∧ p2 ∈ pairs3 ∧ p3 ∈ pairs4 ∧ p4 ∈ pairs4 ∧
      p5 ∈ pairs4 ∧ p6 ∈ pairs4 ∧
      p2 ≠ p1 ∧ p3 ≠ p2 ∧ p4 ≠ p3 ∧ p5 ≠ p4 ∧ p6 ≠ p5 := by
  have h3len : 2 ≤ pairs3.length := by decide
  have h3nd : pairs3.Nodup := by decide
  have h4len : 2 ≤ pairs4.length := by decide
  have h4nd : pairs4.Nodup := by decide
  obtain ⟨p1, s1, hr1, hm1, _⟩ := pickPair_spec pairs3 none h3len h3nd s
  obtain ⟨p2, s2', hr2, hm2, hne2⟩ := pickPair_spec pairs3 (some p1) h3len h3nd s1
  obtain ⟨p3, s3, hr3, hm3, hne3⟩ := pickPair_spec pairs4 (some p2) h4len h4nd s2'
  obtain ⟨p4, s4, hr4, hm4, hne4⟩ := pickPair_spec pairs4 (some p3) h4len h4nd s3
  obtain ⟨p5, s5, hr5, hm5, hne5⟩ := pickPair_spec pairs4 (some p4) h4len h4nd s4
  obtain ⟨p6, s6, hr6, hm6, hne6⟩ := pickPair_spec pairs4 (some p5) h4len h4nd s5
  refine ⟨p1, p2, p3, p4, p5, p6, s6, ?_, hm1, hm2, hm3, hm4, hm5, hm6,
    hne2 p1 rfl hm1, hne3 p2 rfl (pairs3_sub_pairs4 p2 hm2),
    hne4 p3 rfl hm3, hne5 p4 rfl hm4, hne6 p5 rfl hm5⟩
  exact runsTo_bind hr1 (runsTo_bind hr2 (runsTo_bind hr3 (runsTo_bind hr4
    (runsTo_bind hr5 (runsTo_bind hr6 (runsTo_pure _ _))))))

/-! ### The per-rule trial loop -/

theorem trialLoopGo_spec
    (rule_num : Nat) (rf active : List Nat) (prf : Option (List Nat)) (tt : Nat)
    (hactive_nd : active.Nodup) (hactive4 : ∀ p ∈ active, p < 4)
    (hact1 : 1 ≤ active.length)
    (hrf_sub : rf ⊆ active) (hrf_nd : rf.Nodup) (hrf_len : rf.length = 2)
    (h1r : 1 ≤ rule_num) (h6r : rule_num ≤ 6)
    (hnr1 : 1 ≤ (active.filter (fun p => decide (p ∉ rf))).length)
    (hnr2 : rule_num = 6 → 2 ≤ (active.filter (fun p => decide (p ∉ rf))).length)
    (hprf : ∀ pf, prf = some pf → pf ⊆ active ∧ pf.Nodup ∧ pf.length = 2 ∧
      rf.countP (fun p => decide (p ∈ pf)) ≤ 1) :
    ∀ (m i : Nat) (s : List Nat),
      ∃ ts s2, RunsTo (trialLoopGo rule_num rf active prf tt m i) s ts s2 ∧
        ts.length = m ∧
        ∀ t ∈ ts, ∃ k, k < m ∧ TrialOk t rule_num rf active prf tt (i + k) := by
  intro m
  induction m with
  | zero =>
      intro i s
      exact ⟨[], s, runsTo_pure _ _, rfl, by intro t ht; exact absurd ht (List.not_mem_nil t)⟩
  | succ m ih =>
      intro i s
      obtain ⟨t, s1, htrun, hrule, hrf', hap, histrans, hidx, hpfv, hml, hol, hci,
        hcall, hcnt, htrans⟩ :=
        generate_trial_spec rule_num rf active (prf.isSome && decide (i < tt)) prf
          hactive_nd hactive4 hact1 hrf_sub hrf_nd hrf_len h1r h6r hnr1 hnr2 hprf s
      obtain ⟨rest, s2, hrestrun, hrestlen, hrestmem⟩ := ih (i + 1) s1
      refine ⟨{ t with trial_index_in_rule := i } :: rest, s2, ?_, by simp [hrestlen], ?_⟩
      · exact runsTo_bind htrun (runsTo_bind hrestrun (runsTo_pure _ _))
      · intro t' ht'
        rcases List.mem_cons.mp ht' with h | h
        · subst h
          refine ⟨0, by omega, ?_⟩
          refine ⟨hrule, hrf', hap, by simp, ?_, ?_, hml, hol, hci, hcall, hcnt, ?_⟩
          · show t.is_transition = (prf.isSome && decide (i + 0 < tt))
            simp only [Nat.add_zero]
            exact histrans
          · show t.prevRuleFeatures = if t.is_transition = true then prf else none
            rw [hpfv, histrans]
          · intro hti pf hpf
            obtain ⟨o, ho, hoex⟩ := htrans (by rw [← histrans]; exact hti) pf hpf
            exact ⟨o, ho, hoex⟩
        · obtain ⟨k, hk, hTO⟩ := hrestmem t' h
          refine ⟨k + 1, by omega, ?_⟩
          have harith : i + 1 + k = i + (k + 1) := by omega
          rw [harith] at hTO
          exact hTO

/-- Stage-1 instantiation of the trial loop (rules 1-2, 3-symbol cards). -/
theorem trialLoopGo_stage1
    (rule_num : Nat) (rf : List Nat) (prf : Option (List Nat)) (tt : Nat)
    (h1r : 1 ≤ rule_num) (h2r : rule_num ≤ 2) (hrf : rf ∈ pairs3)
    (hprf : ∀ pf, prf = some pf → pf ∈ pairs3 ∧ pf ≠ rf) :
    ∀ (m i : Nat) (s : List Nat),
      ∃ ts s2, RunsTo (trialLoopGo rule_num rf active3 prf tt m i) s ts s2 ∧
        ts.length = m ∧
        ∀ t ∈ ts, ∃ k, k < m ∧ TrialOk t rule_num rf active3 prf tt (i + k) := by
  obtain ⟨hrf_nd, hrf_len, hrf_sub3, _⟩ := pairs3_props rf hrf
  apply trialLoopGo_spec rule_num rf active3 prf tt
    active3_props.1 active3_props.2.1 active3_props.2.2
    (fun p hp => hrf_sub3 p hp) hrf_nd hrf_len h1r (by omega)
    (pairs3_nonrf rf hrf) (by intro h; omega)
  intro pf hpf
  obtain ⟨hpf3, hpfne⟩ := hprf pf hpf
  obtain ⟨hpf_nd, hpf_len, hpf_sub3, _⟩ := pairs3_props pf hpf3
  refine ⟨fun p hp => hpf_sub3 p hp, hpf_nd, hpf_len, ?_⟩
  exact pair_inter_le_one rf (List.mem_append_left _ hrf) pf
    (List.mem_append_left _ hpf3) (fun hc => hpfne hc.symm)

/-- Stage-2 instantiation of the trial loop (rules 3-6, 4-symbol cards). -/
theorem trialLoopGo_stage2
    (rule_num : Nat) (rf : List Nat) (prf : Option (List Nat)) (tt : Nat)
    (h3r : 3 ≤ rule_num) (h6r : rule_num ≤ 6) (hrf : rf ∈ pairs4)
    (hprf : ∀ pf, prf = some pf → (pf ∈ pairs3 ∨ pf ∈ pairs4) ∧ pf ≠ rf) :
    ∀ (m i : Nat) (s : List Nat),
      ∃ ts s2, RunsTo (trialLoopGo rule_num rf active4 prf tt m i) s ts s2 ∧
        ts.length = m ∧
        ∀ t ∈ ts, ∃ k, k < m ∧ TrialOk t rule_num rf active4 prf tt (i + k) := by
  obtain ⟨hrf_nd, hrf_len, hrf_sub4⟩ := pairs4_props rf hrf
  apply trialLoopGo_spec rule_num rf active4 prf tt
    active4_props.1 active4_props.2.1 active4_props.2.2
    (fun p hp => hrf_sub4 p hp) hrf_nd hrf_len (by omega) h6r
    (by have := pairs4_nonrf rf hrf; omega)
    (fun _ => pairs4_nonrf rf hrf)
  intro pf hpf
  obtain ⟨hpf34, hpfne⟩ := hprf pf hpf
  have hpf_mem : pf ∈ pairs3 ++ pairs4 := by
    rcases hpf34 with h | h
    · exact List.mem_append_left _ h
    · exact List.mem_append_right _ h
  have hpf_sub4 : ∀ p ∈ pf, p ∈ active4 := by
    rcases hpf34 with h | h
    · exact (pairs3_props pf h).2.2.2
    · exact (pairs4_props pf h).2.2
  have hpf_nd : pf.Nodup := by
    rcases hpf34 with h | h
    · exact (pairs3_props pf h).1
    · exact (pairs4_props pf h).1
  have hpf_len : pf.length = 2 := by
    rcases hpf34 with h | h
    · exact (pairs3_props pf h).2.1
    · exact (pairs4_props pf h).2.1
  refine ⟨fun p hp => hpf_sub4 p hp, hpf_nd, hpf_len, ?_⟩
  exact pair_inter_le_one rf (List.mem_append_right _ hrf) pf hpf_mem
    (fun hc => hpfne hc.symm)

/-! ### Master characterization of generate_all_trials -/

theorem generate_all_trials_spec (tpr tt : Nat) (s : List Nat) :
    ∃ trials s2 p1 p2 p3 p4 p5 p6,
      RunsTo (generate_all_trials tpr tt) s trials s2 ∧
      p1 ∈ pairs3 ∧ p2 ∈ pairs3 ∧ p3 ∈ pairs4 ∧ p4 ∈ pairs4 ∧
      p5 ∈ pairs4 ∧ p6 ∈ pairs4 ∧
      p2 ≠ p1 ∧ p3 ≠ p2 ∧ p4 ≠ p3 ∧ p5 ≠ p4 ∧ p6 ≠ p5 ∧
      trials.length = 6 * tpr ∧
      ∀ t ∈ trials, t.trial_index_in_rule < tpr ∧
        ((t.rule = 1 ∧ TrialOk t 1 p1 active3 none tt t.trial_index_in_rule) ∨
         (t.rule = 2 ∧ TrialOk t 2 p2 active3 (some p1) tt t.trial_index_in_rule) ∨
         (t.rule = 3 ∧ TrialOk t 3 p3 active4 (some p2) tt t.trial_index_in_rule) ∨
         (t.rule = 4 ∧ TrialOk t 4 p4 active4 (some p3) tt t.trial_index_in_rule) ∨
         (t.rule = 5 ∧ TrialOk t 5 p5 active4 (some p4) tt t.trial_index_in_rule) ∨
         (t.rule = 6 ∧ TrialOk t 6 p6 active4 (some p5) tt t.trial_index_in_rule)) := by
  obtain ⟨p1, p2, p3, p4, p5, p6, s0, hassign, hm1, hm2, hm3, hm4, hm5, hm6,
    hne2, hne3, hne4, hne5, hne6⟩ := assignFeatures_spec s
  obtain ⟨t1, s1, hb1, hl1, hmem1⟩ :=
    trialLoopGo_stage1 1 p1 none tt (by omega) (by omega) hm1
      (by intro pf h; cases h) tpr 0 s0
  obtain ⟨t2, s2', hb2, hl2, hmem2⟩ :=
    trialLoopGo_stage1 2 p2 (some p1) tt (by omega) (by omega) hm2
      (by intro pf h; injection h with h2; subst h2; exact ⟨hm1, fun hc => hne2 hc.symm⟩)
      tpr 0 s1
  obtain ⟨t3, s3, hb3, hl3, hmem3⟩ :=
    trialLoopGo_stage2 3 p3 (some p2) tt (by omega) (by omega) hm3
      (by intro pf h; injection h with h2; subst h2
          exact ⟨Or.inl hm2, fun hc => hne3 hc.symm⟩) tpr 0 s2'
  obtain ⟨t4, s4, hb4, hl4, hmem4⟩ :=
    trialLoopGo_stage2 4 p4 (some p3) tt (by omega) (by omega) hm4
      (by intro pf h; injection h with h2; subst h2
          exact ⟨Or.inr hm3, fun hc => hne4 hc.symm⟩) tpr 0 s3
  obtain ⟨t5, s5, hb5, hl5, hmem5⟩ :=
    trialLoopGo_stage2 5 p5 (some p4) tt (by omega) (by omega) hm5
      (by intro pf h; injection h with h2; subst h2
          exact ⟨Or.inr hm4, fun hc => hne5 hc.symm⟩) tpr 0 s4
  obtain ⟨t6, s6, hb6, hl6, hmem6⟩ :=
    trialLoopGo_stage2 6 p6 (some p5) tt (by omega) (by omega) hm6
      (by intro pf h; injection h with h2; subst h2
          exact ⟨Or.inr hm5, fun hc => hne6 hc.symm⟩) tpr 0 s5
  refine ⟨t1 ++ t2 ++ t3 ++ t4 ++ t5 ++ t6, s6, p1, p2, p3, p4, p5, p6, ?_,
    hm1, hm2, hm3, hm4, hm5, hm6, hne2, hne3, hne4, hne5, hne6, ?_, ?_⟩
  · exact runsTo_bind hassign (runsTo_bind hb1 (runsTo_bind hb2 (runsTo_bind hb3
      (runsTo_bind hb4 (runsTo_bind hb5 (runsTo_bind hb6 (runsTo_pure _ _)))))))
  · simp [hl1, hl2, hl3, hl4, hl5, hl6]
    omega
  · intro t ht
    have hblock : t ∈ t1 ∨ t ∈ t2 ∨ t ∈ t3 ∨ t ∈ t4 ∨ t ∈ t5 ∨ t ∈ t6 := by
      simpa [List.mem_append, or_assoc] using ht
    rcases hblock with h | h | h | h | h | h
    · obtain ⟨k, hk, hTO⟩ := hmem1 t h
      have hidx : t.trial_index_in_rule = 0 + k := hTO.2.2.2.1
      rw [← hidx] at hTO
      exact ⟨by omega, Or.inl ⟨hTO.1, hTO⟩⟩
    · obtain ⟨k, hk, hTO⟩ := hmem2 t h
      have hidx : t.trial_index_in_rule = 0 + k := hTO.2.2.2.1
      rw [← hidx] at hTO
      exact ⟨by omega, Or.inr (Or.inl ⟨hTO.1, hTO⟩)⟩
    · obtain ⟨k, hk, hTO⟩ := hmem3 t h
      have hidx : t.trial_index_in_rule = 0 + k := hTO.2.2.2.1
      rw [← hidx] at hTO
      exact ⟨by omega, Or.inr (Or.inr (Or.inl ⟨hTO.1, hTO⟩))⟩
    · obtain ⟨k, hk, hTO⟩ := hmem4 t h
      have hidx : t.trial_index_in_rule = 0 + k := hTO.2.2.2.1
      rw [← hidx] at hTO
      exact ⟨by omega, Or.inr (Or.inr (Or.inr (Or.inl ⟨hTO.1, hTO⟩)))⟩
    · obtain ⟨k, hk, hTO⟩ := hmem5 t h
      have hidx : t.trial_index_in_rule = 0 + k := hTO.2.2.2.1
      rw [← hidx] at hTO
      exact ⟨by omega, Or.inr (Or.inr (Or.inr (Or.inr (Or.inl ⟨hTO.1, hTO⟩))))⟩
    · obtain ⟨k, hk, hTO⟩ := hmem6 t h
      have hidx : t.trial_index_in_rule = 0 + k := hTO.2.2.2.1
      rw [← hidx] at hTO
      exact ⟨by omega, Or.inr (Or.inr (Or.inr (Or.inr (Or.inr ⟨hTO.1, hTO⟩))))⟩

/-! ### Session machine lemmas -/

theorem advanceToNextRule_proj (s : SessionState) :
    (advanceToNextRule s).counted_trials = s.counted_trials ∧
    (advanceToNextRule s).score = s.score ∧
    (advanceToNextRule s).consecutive_correct = s.consecutive_correct ∧
    (advanceToNextRule s).rules_found = s.rules_found ∧
    (advanceToNextRule s).perseveration_errors = s.perseveration_errors ∧
    (advanceToNextRule s).non_perseveration_errors = s.non_perseveration_errors ∧
    (advanceToNextRule s).trials = s.trials ∧
    (advanceToNextRule s).feedback = s.feedback ∧
    (advanceToNextRule s).show_feedback = s.show_feedback ∧
    (advanceToNextRule s).rule_end_message = s.rule_end_message := by
  have key : ∀ (o : Option Nat) (s : SessionState),
      ((match o with
        | some i => { s with trial := i }
        | none => { s with trial := s.trials.length } : SessionState).counted_trials
          = s.counted_trials ∧
       (match o with
        | some i => { s with trial := i }
        | none => { s with trial := s.trials.length } : SessionState).score = s.score ∧
       (match o with
        | some i => { s with trial := i }
        | none => { s with trial := s.trials.length } : SessionState).consecutive_correct
          = s.consecutive_correct ∧
       (match o with
        | some i => { s with trial := i }
        | none => { s with trial := s.trials.length } : SessionState).rules_found
          = s.rules_found ∧
       (match o with
        | some i => { s with trial := i }
        | none => { s with trial := s.trials.length } : SessionState).perseveration_errors
          = s.perseveration_errors ∧
       (match o with
        | some i => { s with trial := i }
        | none => { s with trial := s.trials.length } : SessionState).non_perseveration_errors
          = s.non_perseveration_errors ∧
       (match o with
        | some i => { s with trial := i }
        | none => { s with trial := s.trials.length } : SessionState).trials = s.trials ∧
       (match o with
        | some i => { s with trial := i }
        | none => { s with trial := s.trials.length } : SessionState).feedback = s.feedback ∧
       (match o with
        | some i => { s with trial := i }
        | none => { s with trial := s.trials.length } : SessionState).show_feedback
          = s.show_feedback ∧
       (match o with
        | some i => { s with trial := i }
        | none => { s with trial := s.trials.length } : SessionState).rule_end_message
          = s.rule_end_message) := by
    intro o s
    cases o <;> simp
  exact key (findNextRuleIdxGo (s.trials.getD s.trial default).rule s.trials 0) s

theorem advanceToNextRule_trial_congr (s s' : SessionState)
    (h1 : s.trials = s'.trials) (h2 : s.trial = s'.trial) :
    (advanceToNextRule s).trial = (advanceToNextRule s').trial := by
  have key : ∀ (o : Option Nat) (u : SessionState),
      (match o with
       | some i => { u with trial := i }
       | none => { u with trial := u.trials.length } : SessionState).trial =
        (match o with
         | some i => i
         | none => u.trials.length) := by
    intro o u
    cases o <;> simp
  show (match findNextRuleIdxGo (s.trials.getD s.trial default).rule s.trials 0 with
        | some i => { s with trial := i }
        | none => { s with trial := s.trials.length } : SessionState).trial =
      (match findNextRuleIdxGo (s'.trials.getD s'.trial default).rule s'.trials 0 with
        | some i => { s' with trial := i }
        | none => { s' with trial := s'.trials.length } : SessionState).trial
  rw [key, key, h1, h2]

theorem findNextRuleIdxGo_some (r : Nat) :
    ∀ (l : List Trial) (i j : Nat), j < l.length →
      (∀ k, k < j → ¬ r < (l.getD k default).rule) →
      r < (l.getD j default).rule →
      findNextRuleIdxGo r l i = some (i + j) := by
  intro l
  induction l with
  | nil => intro i j hj _ _; simp at hj
  | cons t ts ih =>
      intro i j hj hbefore hat
      match j with
      | 0 =>
          have : r < t.rule := by simpa using hat
          unfold findNextRuleIdxGo
          rw [if_pos this]
          simp
      | Nat.succ j' =>
          have hnot : ¬ r < t.rule := by
            have := hbefore 0 (by omega)
            simpa using this
          unfold findNextRuleIdxGo
          rw [if_neg hnot]
          have hrec := ih (i + 1) j' (by simpa using hj)
            (fun k hk => by
              have := hbefore (k + 1) (by omega)
              simpa using this)
            (by simpa using hat)
          rw [hrec]
          congr 1
          omega

theorem findNextRuleIdxGo_none (r : Nat) :
    ∀ (l : List Trial) (i : Nat),
      (∀ k, k < l.length → ¬ r < (l.getD k default).rule) →
      findNextRuleIdxGo r l i = none := by
  intro l
  induction l with
  | nil => intro i _; rfl
  | cons t ts ih =>
      intro i hall
      have hnot : ¬ r < t.rule := by
        have := hall 0 (by simp)
        simpa using this
      unfold findNextRuleIdxGo
      rw [if_neg hnot]
      exact ih (i + 1) (fun k hk => by
        have := hall (k + 1) (by simpa using hk)
        simpa using this)

/-- `_advance_to_next_rule` on a well-formed buffer: the cursor moves to the
first trial of the rule after the one at the current cursor, or past the
end when none remains. -/
theorem advanceToNextRule_wf (tpr numRules : Nat) (s : SessionState)
    (hwf : wellFormed s.trials tpr numRules) (htpr : 1 ≤ tpr)
    (hcur : s.trial < s.trials.length) :
    (advanceToNextRule s).trial =
      if (s.trial / tpr + 1) * tpr < s.trials.length
      then (s.trial / tpr + 1) * tpr else s.trials.length := by
  obtain ⟨hlen, hfields⟩ := hwf
  have hrule : (s.trials.getD s.trial default).rule = s.trial / tpr + 1 :=
    (hfields s.trial hcur).1
  have key : ∀ (o : Option Nat) (u : SessionState),
      (match o with
       | some i => { u with trial := i }
       | none => { u with trial := u.trials.length } : SessionState).trial =
        (match o with
         | some i => i
         | none => u.trials.length) := by
    intro o u
    cases o <;> simp
  have hshow : (advanceToNextRule s).trial =
      (match findNextRuleIdxGo ((s.trials.getD s.trial default)).rule s.trials 0 with
       | some i => i
       | none => s.trials.length) :=
    key (findNextRuleIdxGo ((s.trials.getD s.trial default)).rule s.trials 0) s
  set r := s.trial / tpr + 1 with hr
  by_cases hlt : r * tpr < s.trials.length
  · have hsome : findNextRuleIdxGo (s.trials.getD s.trial default).rule s.trials 0 =
        some (0 + r * tpr) := by
      rw [hrule]
      apply findNextRuleIdxGo_some r s.trials 0 (r * tpr) hlt
      · intro k hk
        have hk_lt : k < s.trials.length := by omega
        rw [(hfields k hk_lt).1]
        have hcomm : r * tpr = tpr * r := Nat.mul_comm r tpr
        have : k / tpr < r := Nat.div_lt_of_lt_mul (by omega)
        omega
      · rw [(hfields (r * tpr) hlt).1]
        have : r * tpr / tpr = r := Nat.mul_div_cancel r (by omega)
        omega
    rw [hshow, hsome, if_pos hlt]
    simp
  · have hnone : findNextRuleIdxGo (s.trials.getD s.trial default).rule s.trials 0 =
        none := by
      rw [hrule]
      apply findNextRuleIdxGo_none r s.trials 0
      intro k hk
      rw [(hfields k hk).1]
      have hcomm : r * tpr = tpr * r := Nat.mul_comm r tpr
      have : k / tpr < r := Nat.div_lt_of_lt_mul (by omega)
      omega
    rw [hshow, hnone, if_neg hlt]

theorem rerunStep_quiescent (s : SessionState)
    (h1 : s.rule_end_message = false) (h2 : s.show_feedback = false) :
    rerunStep s = s := by
  unfold rerunStep
  by_cases hg : gameOver s
  · rw [if_pos hg]
  · rw [if_neg hg, h1]
    simp only [Bool.false_eq_true, if_false]
    rw [h2]
    simp only [Bool.false_eq_true, if_false]

theorem rerunStep_feedback_streak (s : SessionState)
    (hg : ¬ gameOver s) (hrem : s.rule_end_message = false)
    (hsf : s.show_feedback = true) (hstreak : 3 ≤ s.consecutive_correct) :
    rerunStep s =
      { s with show_feedback := false, feedback := none,
               consecutive_correct := 0 } := by
  unfold rerunStep
  rw [if_neg hg, hrem]
  simp only [Bool.false_eq_true, if_false]
  rw [hsf]
  simp only [if_true]
  rw [if_pos (by simpa using hstreak)]

theorem advance_counted (s : SessionState) :
    (advanceToNextRule s).counted_trials = s.counted_trials :=
  (advanceToNextRule_proj s).1

theorem advance_score (s : SessionState) :
    (advanceToNextRule s).score = s.score :=
  (advanceToNextRule_proj s).2.1

theorem advance_streak (s : SessionState) :
    (advanceToNextRule s).consecutive_correct = s.consecutive_correct :=
  (advanceToNextRule_proj s).2.2.1

theorem advance_rules_found (s : SessionState) :
    (advanceToNextRule s).rules_found = s.rules_found :=
  (advanceToNextRule_proj s).2.2.2.1

theorem advance_pe (s : SessionState) :
    (advanceToNextRule s).perseveration_errors = s.perseveration_errors :=
  (advanceToNextRule_proj s).2.2.2.2.1

theorem advance_npe (s : SessionState) :
    (advanceToNextRule s).non_perseveration_errors = s.non_perseveration_errors :=
  (advanceToNextRule_proj s).2.2.2.2.2.1

theorem advance_trials (s : SessionState) :
    (advanceToNextRule s).trials = s.trials :=
  (advanceToNextRule_proj s).2.2.2.2.2.2.1

theorem advance_feedback (s : SessionState) :
    (advanceToNextRule s).feedback = s.feedback :=
  (advanceToNextRule_proj s).2.2.2.2.2.2.2.1

theorem advance_show_feedback (s : SessionState) :
    (advanceToNextRule s).show_feedback = s.show_feedback :=
  (advanceToNextRule_proj s).2.2.2.2.2.2.2.2.1

theorem advance_rem (s : SessionState) :
    (advanceToNextRule s).rule_end_message = s.rule_end_message :=
  (advanceToNextRule_proj s).2.2.2.2.2.2.2.2.2

/-- Frame characterization of the scoring and error-tracking block. -/
theorem scoreUpdate_spec (s : SessionState) (i : Nat) :
    (scoreUpdate s i).trials = s.trials ∧
    (scoreUpdate s i).trial = s.trial ∧
    (scoreUpdate s i).rules_found = s.rules_found ∧
    (scoreUpdate s i).feedback = s.feedback ∧
    (scoreUpdate s i).show_feedback = s.show_feedback ∧
    (scoreUpdate s i).rule_end_message = s.rule_end_message ∧
    (scoreUpdate s i).counted_trials =
      (if (s.trials.getD s.trial default).trial_index_in_rule = 0
       then s.counted_trials else s.counted_trials + 1) ∧
    (scoreUpdate s i).score =
      (if ¬ (s.trials.getD s.trial default).trial_index_in_rule = 0 ∧
          check_answer (s.trials.getD s.trial default) i = "correct"
       then s.score + 1 else s.score) ∧
    (scoreUpdate s i).consecutive_correct =
      (if check_answer (s.trials.getD s.trial default) i = "correct"
       then s.consecutive_correct + 1 else 0) ∧
    (scoreUpdate s i).perseveration_errors =
      (if ¬ (s.trials.getD s.trial default).trial_index_in_rule = 0 ∧
          ¬ check_answer (s.trials.getD s.trial default) i = "correct" ∧
          is_perseveration (s.trials.getD s.trial default) i = true
       then s.perseveration_errors + 1 else s.perseveration_errors) ∧
    (scoreUpdate s i).non_perseveration_errors =
      (if ¬ (s.trials.getD s.trial default).trial_index_in_rule = 0 ∧
          ¬ check_answer (s.trials.getD s.trial default) i = "correct" ∧
          ¬ is_perseveration (s.trials.getD s.trial default) i = true
       then s.non_perseveration_errors + 1 else s.non_perseveration_errors) := by
  by_cases hfirst : (s.trials.getD s.trial default).trial_index_in_rule = 0 <;>
    by_cases hfb : check_answer (s.trials.getD s.trial default) i = "correct" <;>
    by_cases hp : is_perseveration (s.trials.getD s.trial default) i = true <;>
    (simp only [scoreUpdate]
     simp only [List.getD_eq_getElem?_getD] at hfirst hfb hp ⊢
     simp [hfirst, hfb, hp])

/-- Frame characterization of the streak-triggered rule advancement. -/
theorem streakAdvance_spec (u : SessionState) :
    (streakAdvance u).trials = u.trials ∧
    (streakAdvance u).counted_trials = u.counted_trials ∧
    (streakAdvance u).score = u.score ∧
    (streakAdvance u).consecutive_correct = u.consecutive_correct ∧
    (streakAdvance u).perseveration_errors = u.perseveration_errors ∧
    (streakAdvance u).non_perseveration_errors = u.non_perseveration_errors ∧
    (streakAdvance u).feedback = u.feedback ∧
    (streakAdvance u).show_feedback = u.show_feedback ∧
    (streakAdvance u).rule_end_message = u.rule_end_message ∧
    (streakAdvance u).rules_found =
      (if 3 ≤ u.consecutive_correct then u.rules_found + 1 else u.rules_found) ∧
    (streakAdvance u).trial =
      (if 3 ≤ u.consecutive_correct then (advanceToNextRule u).trial
       else u.trial) := by
  unfold streakAdvance
  by_cases h : 3 ≤ u.consecutive_correct
  · simp only [if_pos h]
    refine ⟨?_, ?_, ?_, ?_, ?_, ?_, ?_, ?_, ?_, ?_, ?_⟩
    · rw [advance_trials]
    · rw [advance_counted]
    · rw [advance_score]
    · rw [advance_streak]
    · rw [advance_pe]
    · rw [advance_npe]
    · rw [advance_feedback]
    · rw [advance_show_feedback]
    · rw [advance_rem]
    · rw [advance_rules_found]
    · apply advanceToNextRule_trial_congr <;> rfl
  · simp only [if_neg h]
    simp

/-- Full frame characterization of the answer-button handler. -/
theorem answerStep_spec (s : SessionState) (i : Nat) :
    (answerStep s i).trials = s.trials ∧
    (answerStep s i).show_feedback = true ∧
    (answerStep s i).feedback =
      some (check_answer (s.trials.getD s.trial default) i) ∧
    (answerStep s i).rule_end_message = s.rule_end_message ∧
    (answerStep s i).counted_trials =
      (if (s.trials.getD s.trial default).trial_index_in_rule = 0
       then s.counted_trials else s.counted_trials + 1) ∧
    (answerStep s i).score =
      (if ¬ (s.trials.getD s.trial default).trial_index_in_rule = 0 ∧
          check_answer (s.trials.getD s.trial default) i = "correct"
       then s.score + 1 else s.score) ∧
    (answerStep s i).consecutive_correct =
      (if check_answer (s.trials.getD s.trial default) i = "correct"
       then s.consecutive_correct + 1 else 0) ∧
    (answerStep s i).perseveration_errors =
      (if ¬ (s.trials.getD s.trial default).trial_index_in_rule = 0 ∧
          ¬ check_answer (s.trials.getD s.trial default) i = "correct" ∧
          is_perseveration (s.trials.getD s.trial default) i = true
       then s.perseveration_errors + 1 else s.perseveration_errors) ∧
    (answerStep s i).non_perseveration_errors =
      (if ¬ (s.trials.getD s.trial default).trial_index_in_rule = 0 ∧
          ¬ check_answer (s.trials.getD s.trial default) i = "correct" ∧
          ¬ is_perseveration (s.trials.getD s.trial default) i = true
       then s.non_perseveration_errors + 1 else s.non_perseveration_errors) ∧
    (answerStep s i).rules_found =
      (if 3 ≤ (if check_answer (s.trials.getD s.trial default) i = "correct"
               then s.consecutive_correct + 1 else 0)
       then s.rules_found + 1 else s.rules_found) ∧
    (answerStep s i).trial =
      (if 3 ≤ (if check_answer (s.trials.getD s.trial default) i = "correct"
               then s.consecutive_correct + 1 else 0)
       then (advanceToNextRule s).trial else s.trial) := by
  obtain ⟨hu_trials, hu_trial, hu_rules, hu_fb, hu_sf, hu_rem, hu_counted,
    hu_score, hu_cc, hu_pe, hu_npe⟩ := scoreUpdate_spec s i
  obtain ⟨hs_trials, hs_counted, hs_score, hs_cc, hs_pe, hs_npe, hs_fb, hs_sf,
    hs_rem, hs_rules, hs_trial⟩ := streakAdvance_spec (scoreUpdate s i)
  have hadv_trial : (advanceToNextRule (scoreUpdate s i)).trial =
      (advanceToNextRule s).trial := by
    apply advanceToNextRule_trial_congr
    · exact hu_trials
    · exact hu_trial
  refine ⟨?_, rfl, rfl, ?_, ?_, ?_, ?_, ?_, ?_, ?_, ?_⟩
  · show (streakAdvance (scoreUpdate s i)).trials = s.trials
    rw [hs_trials, hu_trials]
  · show (streakAdvance (scoreUpdate s i)).rule_end_message = s.rule_end_message
    rw [hs_rem, hu_rem]
  · show (streakAdvance (scoreUpdate s i)).counted_trials = _
    rw [hs_counted, hu_counted]
  · show (streakAdvance (scoreUpdate s i)).score = _
    rw [hs_score, hu_score]
  · show (streakAdvance (scoreUpdate s i)).consecutive_correct = _
    rw [hs_cc, hu_cc]
  · show (streakAdvance (scoreUpdate s i)).perseveration_errors = _
    rw [hs_pe, hu_pe]
  · show (streakAdvance (scoreUpdate s i)).non_perseveration_errors = _
    rw [hs_npe, hu_npe]
  · show (streakAdvance (scoreUpdate s i)).rules_found = _
    rw [hs_rules, hu_cc, hu_rules]
  · show (streakAdvance (scoreUpdate s i)).trial = _
    rw [hs_trial, hu_cc, hu_trial, hadv_trial]

/-! ### Claims -/

/-- Claim C3: the perseveration classifier applied to (trial,
selected_index) returns true if and only if the trial carries a non-null
previous-feature-pair and the option at selected_index matches the main
card on all of the previous rule's feature positions; a selection matching
on only some of the positions is not perseverative. -/
theorem C3_is_perseveration_iff (t : Trial) (i : Nat) :
    is_perseveration t i = true ↔
      ∃ pf, t.prevRuleFeatures = some pf ∧
        ∀ p ∈ pf, (t.options.getD i []).getD p 0 = t.main.getD p 0 := by
  rcases h : t.prevRuleFeatures with _ | pf
  · show (match t.prevRuleFeatures with
          | none => false
          | some prf => prf.all (fun p =>
              (t.options.getD i []).getD p 0 == t.main.getD p 0)) = true ↔ _
    rw [h]
    simp
  · show (match t.prevRuleFeatures with
          | none => false
          | some prf => prf.all (fun p =>
              (t.options.getD i []).getD p 0 == t.main.getD p 0)) = true ↔ _
    rw [h]
    simp only [List.all_eq_true]
    constructor
    · intro hall
      refine ⟨pf, rfl, ?_⟩
      intro p hp
      simpa using hall p hp
    · rintro ⟨pf', hpf', hall⟩
      have hpe : pf' = pf := by injection hpf' with h2; exact h2.symm
      subst hpe
      intro p hp
      simpa using hall p hp

/-- Claim C4: for every main card with values 1-4 at the active positions
and disjoint pinned subsets within the feasibility bounds,
`generate_matching_card` returns a card matching main on exactly `n_match`
active positions, matching on every `must_match` position and differing on
every `must_differ` position. -/
theorem C4_generate_matching_card_exact
    (main active mm md : List Nat) (n : Nat) (s : List Nat)
    (hmain_len : main.length = 4)
    (hmain_val : ∀ p ∈ active, 1 ≤ main.getD p 0 ∧ main.getD p 0 ≤ 4)
    (hactive_nd : active.Nodup) (hactive4 : ∀ p ∈ active, p < 4)
    (hmm_nd : mm.Nodup) (hmd_nd : md.Nodup)
    (hmm_sub : mm ⊆ active) (hmd_sub : md ⊆ active)
    (hdisj : ∀ p ∈ mm, p ∉ md)
    (hlow : mm.length ≤ n)
    (hhigh : n - mm.length ≤
      (active.filter (fun p => decide (p ∉ mm ∧ p ∉ md))).length) :
    ∃ card s2,
      RunsTo (generate_matching_card main active n mm md) s card s2 ∧
      count_rule_matches main card active = n ∧
      (∀ p ∈ mm, card.getD p 0 = main.getD p 0) ∧
      (∀ p ∈ md, card.getD p 0 ≠ main.getD p 0) := by
  obtain ⟨card, s2, hrun, _, hcount, hmm', hmd'⟩ :=
    generate_matching_card_count main active mm md n hmm_nd hmd_nd hactive_nd
      hmm_sub hmd_sub hdisj hactive4 hlow hhigh s
  exact ⟨card, s2, hrun, hcount, hmm', hmd'⟩

theorem C4_witness :
    (([1, 2, 3, 0] : List Nat).length = 4 ∧
     (∀ p ∈ ([0, 1, 2] : List Nat), 1 ≤ ([1, 2, 3, 0] : List Nat).getD p 0 ∧
        ([1, 2, 3, 0] : List Nat).getD p 0 ≤ 4) ∧
     ([0, 1, 2] : List Nat).Nodup ∧ (∀ p ∈ ([0, 1, 2] : List Nat), p < 4) ∧
     ([0] : List Nat).Nodup ∧ ([1] : List Nat).Nodup ∧
     ([0] : List Nat) ⊆ [0, 1, 2] ∧ ([1] : List Nat) ⊆ [0, 1, 2] ∧
     (∀ p ∈ ([0] : List Nat), p ∉ ([1] : List Nat)) ∧
     ([0] : List Nat).length ≤ 2 ∧
     2 - ([0] : List Nat).length ≤
       (([0, 1, 2] : List Nat).filter
         (fun p => decide (p ∉ ([0] : List Nat) ∧ p ∉ ([1] : List Nat)))).length) ∧
    ∃ card s2,
      RunsTo (generate_matching_card [1, 2, 3, 0] [0, 1, 2] 2 [0] [1]) [] card s2 ∧
      count_rule_matches [1, 2, 3, 0] card [0, 1, 2] = 2 ∧
      (∀ p ∈ ([0] : List Nat), card.getD p 0 = ([1, 2, 3, 0] : List Nat).getD p 0) ∧
      (∀ p ∈ ([1] : List Nat), card.getD p 0 ≠ ([1, 2, 3, 0] : List Nat).getD p 0) :=
  ⟨by decide,
   C4_generate_matching_card_exact [1, 2, 3, 0] [0, 1, 2] [0] [1] 2 []
     (by decide) (by decide) (by decide) (by decide) (by decide) (by decide)
     (by decide) (by decide) (by decide) (by decide) (by decide)⟩

/-- Claim C5: `check_answer` returns "correct" iff the selected index is the
trial's recorded correct index; otherwise it returns "half_correct" exactly
when the selected option shares at least one rule-feature-position value
with the main card, and "incorrect" when it shares none; in particular
`check_answer(trial, trial.correct)` is always "correct". -/
theorem C5_check_answer_spec (t : Trial) (i : Nat) (h : i < t.options.length) :
    (check_answer t i = "correct" ↔ i = t.correct) ∧
    (i ≠ t.correct →
      ((check_answer t i = "half_correct" ↔
        1 ≤ count_rule_matches t.main (t.options.getD i []) t.rule_features) ∧
       (check_answer t i = "incorrect" ↔
        count_rule_matches t.main (t.options.getD i []) t.rule_features = 0))) ∧
    check_answer t t.correct = "correct" := by
  refine ⟨?_, ?_, by simp [check_answer]⟩
  · unfold check_answer
    by_cases hic : i = t.correct
    · simp [hic]
    · rw [if_neg hic]
      constructor
      · intro hc
        by_cases hm : 1 ≤ count_rule_matches t.main (t.options.getD i []) t.rule_features
        · rw [if_pos hm] at hc
          exact absurd hc (by decide)
        · rw [if_neg hm] at hc
          exact absurd hc (by decide)
      · intro hc
        exact absurd hc hic
  · intro hic
    unfold check_answer
    rw [if_neg hic]
    by_cases hm : 1 ≤ count_rule_matches t.main (t.options.getD i []) t.rule_features
    · rw [if_pos hm]
      refine ⟨⟨fun _ => hm, fun _ => rfl⟩, ?_, ?_⟩
      · intro hc
        exact absurd hc (by decide)
      · intro hc
        omega
    · rw [if_neg hm]
      refine ⟨⟨fun hc => absurd hc (by decide), fun hc => absurd hc hm⟩, ?_, ?_⟩
      · intro _
        omega
      · intro _
        rfl

theorem C5_witness :
    exTrial.correct + 1 < exTrial.options.length ∧
    ((check_answer exTrial (exTrial.correct + 1) = "correct" ↔
       exTrial.correct + 1 = exTrial.correct) ∧
     (exTrial.correct + 1 ≠ exTrial.correct →
       ((check_answer exTrial (exTrial.correct + 1) = "half_correct" ↔
         1 ≤ count_rule_matches exTrial.main
           (exTrial.options.getD (exTrial.correct + 1) []) exTrial.rule_features) ∧
        (check_answer exTrial (exTrial.correct + 1) = "incorrect" ↔
         count_rule_matches exTrial.main
           (exTrial.options.getD (exTrial.correct + 1) []) exTrial.rule_features = 0))) ∧
     check_answer exTrial exTrial.correct = "correct") :=
  ⟨by decide, C5_check_answer_spec exTrial (exTrial.correct + 1) (by decide)⟩

theorem pairsAll_props : ∀ x ∈ pairs3 ++ pairs4, x.length = 2 ∧ x.Nodup := by decide

/-- Claim C7: for every `trials_per_rule ≥ 1`, every `transition_trials`
and every random supply (seed), `generate_all_trials` with the built-in
6-rule schedule completes without raising the invalid-constraint
`ValueError`: the run succeeds. -/
theorem C7_no_invalid_constraint_error (tpr tt : Nat) (s : List Nat)
    (htpr : 1 ≤ tpr) :
    ∃ trials s2, RunsTo (generate_all_trials tpr tt) s trials s2 ∧
      trials.length = 6 * tpr := by
  obtain ⟨trials, s2, p1, p2, p3, p4, p5, p6, hrun, _, _, _, _, _, _, _, _, _,
    _, _, hlen, _⟩ := generate_all_trials_spec tpr tt s
  exact ⟨trials, s2, hrun, hlen⟩

theorem C7_witness :
    1 ≤ 2 ∧
    ∃ trials s2, RunsTo (generate_all_trials 2 1) [] trials s2 ∧
      trials.length = 6 * 2 :=
  ⟨by decide, C7_no_invalid_constraint_error 2 1 [] (by decide)⟩

/-- Claim C8: in every run of `generate_all_trials`, every trial of rule ≥ 2
with `trial_index_in_rule < transition_trials` has `is_transition = true`
and one of its four options matches the main card on exactly the previous
rule's 2 feature positions (differing on every other active position);
trials with `trial_index_in_rule ≥ transition_trials`, and all trials of
rule 1, have `is_transition = false`.  `fs` lists the per-rule feature
pairs, tied to the trials through their `rule_features` field. -/
theorem C8_transition_trials (tpr tt : Nat) (s : List Nat) :
    ∃ (trials : List Trial) (s2 : List Nat) (fs : List (List Nat)),
      RunsTo (generate_all_trials tpr tt) s trials s2 ∧
      fs.length = 6 ∧
      (∀ t ∈ trials, 1 ≤ t.rule ∧ t.rule ≤ 6 ∧
        t.rule_features = fs.getD (t.rule - 1) []) ∧
      (∀ t ∈ trials, 2 ≤ t.rule → t.trial_index_in_rule < tt →
        t.is_transition = true ∧
        (fs.getD (t.rule - 2) []).length = 2 ∧
        ∃ o ∈ t.options, matchesExactlyOn t.main o (fs.getD (t.rule - 2) [])
          t.active_positions) ∧
      (∀ t ∈ trials, t.rule = 1 ∨ tt ≤ t.trial_index_in_rule →
        t.is_transition = false) := by
  obtain ⟨trials, s2, p1, p2, p3, p4, p5, p6, hrun, hm1, hm2, hm3, hm4, hm5, hm6,
    hne2, hne3, hne4, hne5, hne6, hlen, hall⟩ := generate_all_trials_spec tpr tt s
  refine ⟨trials, s2, [p1, p2, p3, p4, p5, p6], hrun, rfl, ?_, ?_, ?_⟩
  · intro t ht
    obtain ⟨-, hc⟩ := hall t ht
    rcases hc with ⟨hr, hTO⟩ | ⟨hr, hTO⟩ | ⟨hr, hTO⟩ | ⟨hr, hTO⟩ | ⟨hr, hTO⟩ |
      ⟨hr, hTO⟩ <;>
      (rw [hr]; exact ⟨by omega, by omega, by rw [hTO.2.1]; rfl⟩)
  · intro t ht h2r hidx
    obtain ⟨-, hc⟩ := hall t ht
    rcases hc with ⟨hr, hTO⟩ | ⟨hr, hTO⟩ | ⟨hr, hTO⟩ | ⟨hr, hTO⟩ | ⟨hr, hTO⟩ |
      ⟨hr, hTO⟩
    · omega
    all_goals (
      obtain ⟨hrule, hrf, hap, hidx_eq, histr, hpfv, hml, hol, hci, hcall,
        hcnt, htr⟩ := hTO
      rw [hidx_eq] at hidx
      have htrue : t.is_transition = true := by
        rw [histr]
        simp [hidx]
      obtain ⟨o, ho, hoex⟩ := htr htrue _ rfl
      rw [hr]
      refine ⟨htrue, ?_, ?_⟩
      · first
          | exact (pairsAll_props p1 (List.mem_append_left _ hm1)).1
          | exact (pairsAll_props p2 (List.mem_append_left _ hm2)).1
          | exact (pairsAll_props p3 (List.mem_append_right _ hm3)).1
          | exact (pairsAll_props p4 (List.mem_append_right _ hm4)).1
          | exact (pairsAll_props p5 (List.mem_append_right _ hm5)).1
      · rw [hap]
        exact ⟨o, ho, hoex⟩)
  · intro t ht hcond
    obtain ⟨-, hc⟩ := hall t ht
    rcases hc with ⟨hr, hTO⟩ | ⟨hr, hTO⟩ | ⟨hr, hTO⟩ | ⟨hr, hTO⟩ | ⟨hr, hTO⟩ |
      ⟨hr, hTO⟩ <;>
      obtain ⟨hrule, hrf, hap, hidx_eq, histr, -⟩ := hTO
    · rw [histr]
      simp
    all_goals (
      have htt : tt ≤ t.trial_index_in_rule := hcond.resolve_left (by omega)
      rw [histr]
      simp [Nat.not_lt.mpr htt])

theorem C8_witness :
    ∃ (trials : List Trial) (s2 : List Nat) (fs : List (List Nat)),
      RunsTo (generate_all_trials 2 1) [] trials s2 ∧
      fs.length = 6 ∧
      (∀ t ∈ trials, 1 ≤ t.rule ∧ t.rule ≤ 6 ∧
        t.rule_features = fs.getD (t.rule - 1) []) ∧
      (∀ t ∈ trials, 2 ≤ t.rule → t.trial_index_in_rule < 1 →
        t.is_transition = true ∧
        (fs.getD (t.rule - 2) []).length = 2 ∧
        ∃ o ∈ t.options, matchesExactlyOn t.main o (fs.getD (t.rule - 2) [])
          t.active_positions) ∧
      (∀ t ∈ trials, t.rule = 1 ∨ 1 ≤ t.trial_index_in_rule →
        t.is_transition = false) :=
  C8_transition_trials 2 1 []

/-- Claim C9 (counterexample): the claim asserts that the rule at the stage
boundary is unconstrained relative to rule 2's pair, i.e. for some seed
rule 3's feature pair equals rule 2's.  No run of `generate_all_trials`
produces equal feature pairs for rules 2 and 3: `pairs_3` is a subset of
`pairs_4`, so the previous pair is always a member of the current pool and
is filtered out of the candidates. -/
theorem C9_counterexample :
    ¬ ∃ (tpr tt : Nat) (s : List Nat) (trials : List Trial) (s2 : List Nat)
        (t t2 : Trial),
        RunsTo (generate_all_trials tpr tt) s trials s2 ∧
        t ∈ trials ∧ t2 ∈ trials ∧ t.rule = 2 ∧ t2.rule = 3 ∧
        t.rule_features = t2.rule_features := by
  rintro ⟨tpr, tt, s, trials, s2, t, t2, hrun, ht, ht2, hr, hr2, heq⟩
  obtain ⟨trials', s2', p1, p2, p3, p4, p5, p6, hrun', hm1, hm2, hm3, hm4, hm5,
    hm6, hne2, hne3, hne4, hne5, hne6, hlen, hall⟩ :=
    generate_all_trials_spec tpr tt s
  have hsame : trials' = trials := by
    unfold RunsTo at hrun hrun'
    rw [hrun] at hrun'
    have := (Prod.mk.injEq _ _ _ _).mp hrun'
    have h2 := this.1
    injection h2 with h3
    exact h3.symm
  subst hsame
  obtain ⟨-, hc⟩ := hall t ht
  obtain ⟨-, hc2⟩ := hall t2 ht2
  have hrf : t.rule_features = p2 := by
    rcases hc with ⟨h, hTO⟩ | ⟨h, hTO⟩ | ⟨h, hTO⟩ | ⟨h, hTO⟩ | ⟨h, hTO⟩ |
      ⟨h, hTO⟩ <;> first | (exact hTO.2.1) | omega
  have hrf2 : t2.rule_features = p3 := by
    rcases hc2 with ⟨h, hTO⟩ | ⟨h, hTO⟩ | ⟨h, hTO⟩ | ⟨h, hTO⟩ | ⟨h, hTO⟩ |
      ⟨h, hTO⟩ <;> first | (exact hTO.2.1) | omega
  rw [hrf, hrf2] at heq
  exact hne3 heq.symm

/-- Claim C9 (amended): in every trial list produced by
`generate_all_trials`, any two consecutive rules are assigned distinct
feature pairs — within a stage and also across the stage boundary: rule 3's
pair always differs from rule 2's, because stage 1's pair pool is a subset
of stage 2's and the previous pair is therefore always excluded from the
candidates. -/
theorem C9_amended_consecutive_distinct (tpr tt : Nat) (s : List Nat) :
    ∃ trials s2, RunsTo (generate_all_trials tpr tt) s trials s2 ∧
      ∀ t ∈ trials, ∀ t2 ∈ trials, t2.rule = t.rule + 1 →
        t.rule_features ≠ t2.rule_features := by
  obtain ⟨trials, s2, p1, p2, p3, p4, p5, p6, hrun, hm1, hm2, hm3, hm4, hm5,
    hm6, hne2, hne3, hne4, hne5, hne6, hlen, hall⟩ :=
    generate_all_trials_spec tpr tt s
  refine ⟨trials, s2, hrun, ?_⟩
  intro t ht t2 ht2 hsucc
  obtain ⟨-, hc⟩ := hall t ht
  obtain ⟨-, hc2⟩ := hall t2 ht2
  rcases hc with ⟨hr, hTO⟩ | ⟨hr, hTO⟩ | ⟨hr, hTO⟩ | ⟨hr, hTO⟩ | ⟨hr, hTO⟩ |
    ⟨hr, hTO⟩ <;>
    rcases hc2 with ⟨hr2, hTO2⟩ | ⟨hr2, hTO2⟩ | ⟨hr2, hTO2⟩ | ⟨hr2, hTO2⟩ |
      ⟨hr2, hTO2⟩ | ⟨hr2, hTO2⟩ <;>
    (try (exfalso; omega)) <;>
    (rw [hTO.2.1, hTO2.2.1]
     intro hcq
     first
       | exact hne2 hcq.symm
       | exact hne3 hcq.symm
       | exact hne4 hcq.symm
       | exact hne5 hcq.symm
       | exact hne6 hcq.symm)

theorem C9_witness :
    ∃ trials s2, RunsTo (generate_all_trials 2 1) [] trials s2 ∧
      ∀ t ∈ trials, ∀ t2 ∈ trials, t2.rule = t.rule + 1 →
        t.rule_features ≠ t2.rule_features :=
  C9_amended_consecutive_distinct 2 1 []

/-- Per-trial consequence of `TrialOk` needed for the correct-card
uniqueness claim. -/
theorem trialOk_correct_unique (t : Trial) (r : Nat) (pr active : List Nat)
    (prf : Option (List Nat)) (tt idx : Nat)
    (hTO : TrialOk t r pr active prf tt idx)
    (hpr : pr ∈ pairs3 ++ pairs4) :
    t.options.length = 4 ∧ t.correct < 4 ∧ t.rule_features.length = 2 ∧
    matchesAllOn t.main (t.options.getD t.correct []) t.rule_features ∧
    (∀ k, k < 4 → k ≠ t.correct →
      count_rule_matches t.main (t.options.getD k []) t.rule_features ≤ 1) ∧
    (∀ k, k < 4 →
      matchesAllOn t.main (t.options.getD k []) t.rule_features →
      k = t.correct) ∧
    (∀ k, k < 4 → check_answer t k = "half_correct" →
      count_rule_matches t.main (t.options.getD k []) t.rule_features = 1) := by
  obtain ⟨hrule, hrf, hap, hidx, histr, hpfv, hml, hol, hci, hcall, hcnt, -⟩ := hTO
  obtain ⟨hpr_len, hpr_nd⟩ := pairsAll_props pr hpr
  have hcnt' : ∀ k, k < 4 → k ≠ t.correct →
      count_rule_matches t.main (t.options.getD k []) t.rule_features ≤ 1 := by
    intro k hk hkc
    rw [hrf]
    exact hcnt k hk hkc
  have huniq : ∀ k, k < 4 →
      matchesAllOn t.main (t.options.getD k []) t.rule_features →
      k = t.correct := by
    intro k hk hall
    by_contra hkc
    have hle := hcnt' k hk hkc
    have hforall : ∀ p ∈ t.rule_features,
        (t.main.getD p 0 == (t.options.getD k []).getD p 0) = true := by
      intro p hp
      have heqv := hall p hp
      rw [heqv]
      simp
    have : count_rule_matches t.main (t.options.getD k []) t.rule_features =
        t.rule_features.length := List.countP_eq_length.mpr hforall
    rw [this, hrf, hpr_len] at hle
    omega
  refine ⟨hol, hci, by rw [hrf, hpr_len], by rw [hrf]; exact hcall, hcnt', huniq, ?_⟩
  intro k hk hhalf
  have hkc : k ≠ t.correct := by
    intro hc
    rw [hc] at hhalf
    unfold check_answer at hhalf
    rw [if_pos rfl] at hhalf
    exact absurd hhalf (by decide)
  have hge : 1 ≤ count_rule_matches t.main (t.options.getD k []) t.rule_features := by
    unfold check_answer at hhalf
    rw [if_neg hkc] at hhalf
    by_cases hm : 1 ≤ count_rule_matches t.main (t.options.getD k []) t.rule_features
    · exact hm
    · rw [if_neg hm] at hhalf
      exact absurd hhalf (by decide)
  have hle := hcnt' k hk hkc
  omega

/-- Claim C10: in every trial produced by `generate_all_trials`, the option
at the recorded correct index matches the main card on both current
rule-feature positions, every other option matches on at most one, hence
the correct option is the unique both-features match and any non-correct
selection classified "half_correct" matches on exactly one rule feature. -/
theorem C10_correct_unique (tpr tt : Nat) (s : List Nat) :
    ∃ trials s2, RunsTo (generate_all_trials tpr tt) s trials s2 ∧
      ∀ t ∈ trials,
        t.options.length = 4 ∧ t.correct < 4 ∧ t.rule_features.length = 2 ∧
        matchesAllOn t.main (t.options.getD t.correct []) t.rule_features ∧
        (∀ k, k < 4 → k ≠ t.correct →
          count_rule_matches t.main (t.options.getD k []) t.rule_features ≤ 1) ∧
        (∀ k, k < 4 →
          matchesAllOn t.main (t.options.getD k []) t.rule_features →
          k = t.correct) ∧
        (∀ k, k < 4 → check_answer t k = "half_correct" →
          count_rule_matches t.main (t.options.getD k []) t.rule_features = 1) := by
  obtain ⟨trials, s2, p1, p2, p3, p4, p5, p6, hrun, hm1, hm2, hm3, hm4, hm5,
    hm6, hne2, hne3, hne4, hne5, hne6, hlen, hall⟩ :=
    generate_all_trials_spec tpr tt s
  refine ⟨trials, s2, hrun, ?_⟩
  intro t ht
  obtain ⟨-, hc⟩ := hall t ht
  rcases hc with ⟨hr, hTO⟩ | ⟨hr, hTO⟩ | ⟨hr, hTO⟩ | ⟨hr, hTO⟩ | ⟨hr, hTO⟩ |
    ⟨hr, hTO⟩
  · exact trialOk_correct_unique t _ _ _ _ _ _ hTO (List.mem_append_left _ hm1)
  · exact trialOk_correct_unique t _ _ _ _ _ _ hTO (List.mem_append_left _ hm2)
  · exact trialOk_correct_unique t _ _ _ _ _ _ hTO (List.mem_append_right _ hm3)
  · exact trialOk_correct_unique t _ _ _ _ _ _ hTO (List.mem_append_right _ hm4)
  · exact trialOk_correct_unique t _ _ _ _ _ _ hTO (List.mem_append_right _ hm5)
  · exact trialOk_correct_unique t _ _ _ _ _ _ hTO (List.mem_append_right _ hm6)

theorem C10_witness :
    ∃ trials s2, RunsTo (generate_all_trials 2 1) [] trials s2 ∧
      ∀ t ∈ trials,
        t.options.length = 4 ∧ t.correct < 4 ∧ t.rule_features.length = 2 ∧
        matchesAllOn t.main (t.options.getD t.correct []) t.rule_features ∧
        (∀ k, k < 4 → k ≠ t.correct →
          count_rule_matches t.main (t.options.getD k []) t.rule_features ≤ 1) ∧
        (∀ k, k < 4 →
          matchesAllOn t.main (t.options.getD k []) t.rule_features →
          k = t.correct) ∧
        (∀ k, k < 4 → check_answer t k = "half_correct" →
          count_rule_matches t.main (t.options.getD k []) t.rule_features = 1) :=
  C10_correct_unique 2 1 []

theorem rerunStep_gameOver (s : SessionState) (h : gameOver s) :
    rerunStep s = s := by
  unfold rerunStep
  rw [if_pos h]

/-- Claim C1 (counterexample): the claim says every answered trial
increments `counted_trials`, including the first trial of its rule.  On a
concrete session positioned at a first-of-rule trial, answering leaves
`counted_trials` unchanged. -/
theorem C1_counterexample :
    (exState.trials.getD exState.trial default).trial_index_in_rule = 0 ∧
    (answerStep exState 0).counted_trials ≠ exState.counted_trials + 1 := by
  decide

/-- Claim C1 (amended): every answered trial that is not the first trial of
its rule increments `counted_trials` by exactly 1; answering the first
trial of a rule (trial_index_in_rule = 0) leaves `counted_trials` — as well
as `score`, `perseveration_errors` and `non_perseveration_errors` —
unchanged regardless of the evaluation result, while the
consecutive-correct streak is still updated (incremented on "correct",
reset to 0 otherwise). -/
theorem C1_amended_frame (s : SessionState) (i : Nat)
    (h : s.trial < s.trials.length) :
    ((s.trials.getD s.trial default).trial_index_in_rule = 0 →
      (answerStep s i).counted_trials = s.counted_trials ∧
      (answerStep s i).score = s.score ∧
      (answerStep s i).perseveration_errors = s.perseveration_errors ∧
      (answerStep s i).non_perseveration_errors = s.non_perseveration_errors ∧
      (answerStep s i).consecutive_correct =
        (if check_answer (s.trials.getD s.trial default) i = "correct"
         then s.consecutive_correct + 1 else 0)) ∧
    ((s.trials.getD s.trial default).trial_index_in_rule ≠ 0 →
      (answerStep s i).counted_trials = s.counted_trials + 1) := by
  obtain ⟨-, -, -, -, hcounted, hscore, hcc, hpe, hnpe, -, -⟩ := answerStep_spec s i
  constructor
  · intro hfirst
    refine ⟨?_, ?_, ?_, ?_, hcc⟩
    · rw [hcounted, if_pos hfirst]
    · rw [hscore, if_neg (by
        simp only [List.getD_eq_getElem?_getD] at hfirst ⊢
        simp [hfirst])]
    · rw [hpe, if_neg (by
        simp only [List.getD_eq_getElem?_getD] at hfirst ⊢
        simp [hfirst])]
    · rw [hnpe, if_neg (by
        simp only [List.getD_eq_getElem?_getD] at hfirst ⊢
        simp [hfirst])]
  · intro hfirst
    rw [hcounted, if_neg hfirst]

theorem C1_witness :
    exState.trial < exState.trials.length ∧
    (((exState.trials.getD exState.trial default).trial_index_in_rule = 0 →
      (answerStep exState 1).counted_trials = exState.counted_trials ∧
      (answerStep exState 1).score = exState.score ∧
      (answerStep exState 1).perseveration_errors = exState.perseveration_errors ∧
      (answerStep exState 1).non_perseveration_errors =
        exState.non_perseveration_errors ∧
      (answerStep exState 1).consecutive_correct =
        (if check_answer (exState.trials.getD exState.trial default) 1 = "correct"
         then exState.consecutive_correct + 1 else 0)) ∧
    ((exState.trials.getD exState.trial default).trial_index_in_rule ≠ 0 →
      (answerStep exState 1).counted_trials = exState.counted_trials + 1)) :=
  ⟨by decide, C1_amended_frame exState 1 (by decide)⟩

/-- Claim C6: whenever the consecutive-correct streak reaches 3 on an
answered trial, `rules_found` increases by exactly 1 and the cursor jumps
to the first trial of the next rule — or past the end of the buffer when no
rule remains, which is terminal — with the streak at 0 when the next trial
is presented. -/
theorem C6_streak_rule_advance (tpr numRules : Nat) (s : SessionState) (i : Nat)
    (htpr : 1 ≤ tpr)
    (hwf : wellFormed s.trials tpr numRules)
    (hq1 : s.show_feedback = false) (hq2 : s.rule_end_message = false)
    (hng : ¬ gameOver s)
    (hstreak : s.consecutive_correct = 2)
    (hfb : check_answer (s.trials.getD s.trial default) i = "correct") :
    (answerAndSettle s i).rules_found = s.rules_found + 1 ∧
    ((s.trial / tpr + 1) * tpr < s.trials.length →
      (answerAndSettle s i).trial = (s.trial / tpr + 1) * tpr ∧
      (s.trials.getD ((s.trial / tpr + 1) * tpr) default).rule =
        (s.trial / tpr + 1) + 1 ∧
      (s.trials.getD ((s.trial / tpr + 1) * tpr) default).trial_index_in_rule = 0 ∧
      (¬ gameOver (answerAndSettle s i) →
        (answerAndSettle s i).consecutive_correct = 0)) ∧
    (¬ (s.trial / tpr + 1) * tpr < s.trials.length →
      (answerAndSettle s i).trial = s.trials.length ∧
      gameOver (answerAndSettle s i)) := by
  have hcur : s.trial < s.trials.length := by
    unfold gameOver at hng
    push_neg at hng
    exact hng.2
  obtain ⟨ha_trials, ha_sf, ha_fb, ha_rem, ha_counted, ha_score, ha_cc, ha_pe,
    ha_npe, ha_rules, ha_trial⟩ := answerStep_spec s i
  have hcc3 : (answerStep s i).consecutive_correct = 3 := by
    rw [ha_cc, if_pos hfb, hstreak]
  have hrules1 : (answerStep s i).rules_found = s.rules_found + 1 := by
    rw [ha_rules, if_pos hfb, hstreak]
    simp
  have htrialA : (answerStep s i).trial = (advanceToNextRule s).trial := by
    rw [ha_trial, if_pos hfb, hstreak]
    simp
  have hadv := advanceToNextRule_wf tpr numRules s hwf htpr hcur
  have hrem1 : (answerStep s i).rule_end_message = false := by rw [ha_rem, hq2]
  set s1 := answerStep s i with hs1
  by_cases hg1 : gameOver s1
  · have hsettle : answerAndSettle s i = s1 := by
      unfold answerAndSettle
      rw [← hs1, rerunStep_gameOver s1 hg1, rerunStep_gameOver s1 hg1]
    rw [hsettle]
    refine ⟨hrules1, ?_, ?_⟩
    · intro hlt
      refine ⟨by rw [htrialA, hadv, if_pos hlt], ?_, ?_, ?_⟩
      · rw [(hwf.2 _ hlt).1]
        congr 1
        exact Nat.mul_div_cancel _ (by omega)
      · rw [(hwf.2 _ hlt).2]
        exact Nat.mul_mod_left _ _
      · intro hngs
        exact absurd hg1 hngs
    · intro hnlt
      have htr : s1.trial = s.trials.length := by
        rw [htrialA, hadv, if_neg hnlt]
      refine ⟨htr, ?_⟩
      unfold gameOver
      right
      rw [ha_trials]
      omega
  · have hstep1 : rerunStep s1 =
        { s1 with show_feedback := false, feedback := none,
                  consecutive_correct := 0 } := by
      apply rerunStep_feedback_streak s1 hg1 hrem1 ha_sf
      rw [hcc3]
    have hstep2 : rerunStep (rerunStep s1) = rerunStep s1 := by
      rw [hstep1]
      apply rerunStep_quiescent
      · show s1.rule_end_message = false
        exact hrem1
      · rfl
    have hsettle : answerAndSettle s i = rerunStep s1 := by
      unfold answerAndSettle
      rw [← hs1, hstep2]
    rw [hsettle, hstep1]
    refine ⟨hrules1, ?_, ?_⟩
    · intro hlt
      refine ⟨?_, ?_, ?_, ?_⟩
      · show s1.trial = (s.trial / tpr + 1) * tpr
        rw [htrialA, hadv, if_pos hlt]
      · rw [(hwf.2 _ hlt).1]
        congr 1
        exact Nat.mul_div_cancel _ (by omega)
      · rw [(hwf.2 _ hlt).2]
        exact Nat.mul_mod_left _ _
      · intro _
        rfl
    · intro hnlt
      have htr : s1.trial = s.trials.length := by
        rw [htrialA, hadv, if_neg hnlt]
      refine ⟨htr, ?_⟩
      unfold gameOver
      right
      show s1.trials.length ≤ s1.trial
      rw [ha_trials]
      omega

theorem C6_witness :
    (1 ≤ 1 ∧ wellFormed streakState.trials 1 2 ∧
     streakState.show_feedback = false ∧ streakState.rule_end_message = false ∧
     ¬ gameOver streakState ∧ streakState.consecutive_correct = 2 ∧
     check_answer (streakState.trials.getD streakState.trial default) 0 =
       "correct") ∧
    ((answerAndSettle streakState 0).rules_found = streakState.rules_found + 1 ∧
     ((streakState.trial / 1 + 1) * 1 < streakState.trials.length →
       (answerAndSettle streakState 0).trial = (streakState.trial / 1 + 1) * 1 ∧
       (streakState.trials.getD ((streakState.trial / 1 + 1) * 1) default).rule =
         (streakState.trial / 1 + 1) + 1 ∧
       (streakState.trials.getD ((streakState.trial / 1 + 1) * 1)
         default).trial_index_in_rule = 0 ∧
       (¬ gameOver (answerAndSettle streakState 0) →
         (answerAndSettle streakState 0).consecutive_correct = 0)) ∧
     (¬ (streakState.trial / 1 + 1) * 1 < streakState.trials.length →
       (answerAndSettle streakState 0).trial = streakState.trials.length ∧
       gameOver (answerAndSettle streakState 0))) :=
  ⟨⟨by decide, by decide, by decide, by decide, by decide, by decide, by decide⟩,
   C6_streak_rule_advance 1 2 streakState 0 (by decide) (by decide) (by decide)
     (by decide) (by decide) (by decide) (by decide)⟩

set_option maxRecDepth 20000 in
/-- Claim C2 (code evaluation at the failing input): in the session over
`generate_all_trials(10, 3)` run on the all-zero supply, answering the 10
trials of rule 1 with wrong answers (streak never reaches 3) leaves the
cursor at index 20 — the first trial of rule 3 — although rule 2's first
trial sits at index 10: the rule-exhaustion transition increments the
pointer before `_advance_to_next_rule` computes the current rule, so the
whole of rule 2 is skipped. -/
theorem C2_code_bug_eval :
    (demoAfter 9).trial = 9 ∧
    (demoTrials.getD 9 default).rule = 1 ∧
    (demoTrials.getD 9 default).trial_index_in_rule = 9 ∧
    (demoAfter 10).trial = 20 ∧
    (demoTrials.getD 10 default).rule = 2 ∧
    (demoTrials.getD 10 default).trial_index_in_rule = 0 ∧
    (demoTrials.getD 20 default).rule = 3 ∧
    (demoTrials.getD 20 default).trial_index_in_rule = 0 ∧
    (demoAfter 10).consecutive_correct = 0 ∧
    (demoAfter 10).counted_trials = 9 ∧
    demoTrials.length = 60 := by
  decide
